import Mathlib

/-!
Verification development for the `python_motion_planning` 3D grid planners
(JPS and Theta*).  The Python sources
`global_planner/graph_search/jps.py` and
`global_planner/graph_search/theta_star.py` are shallowly embedded below:
positions are integer triples, Python sets are lists with decidable
membership, the mutable `self.obstacles` field is threaded as explicit
state, and unbounded loops/recursions take a fuel argument (`none` marks
running out of fuel, i.e. the Python program would still be looping).
Cost arithmetic (Python floats) is embedded over an arbitrary additive
commutative monoid `C`, with the planner's `dist`/`h` functions and the
`<=` test of `updateVertex` passed as parameters; the Euclidean
instantiation `distE` over `ℝ` is used where a claim speaks about
Euclidean distances.  The priority-queue pop of `heapq` is embedded as a
`pick` parameter that selects some element of the open list; the theorems
below hold for every such selection, and concrete runs are evaluated on
instances where the open list never holds two entries, so the selection
order is immaterial.  The shared base class `a_star.py`, the `Node` class
and the `Grid` environment are not part of the sources; the definitions
modelled from the spec are marked as such in their doc comments.
-/

/-- A grid cell: an integer coordinate triple, as used for `node.current`. -/
abbrev Pos : Type := ℤ × ℤ × ℤ

/-- Componentwise addition of coordinate triples (`Node.__add__` on positions). -/
def padd (a b : Pos) : Pos := (a.1 + b.1, a.2.1 + b.2.1, a.2.2 + b.2.2)

/-- Search node: position, parent position, accumulated cost `g`,
heuristic value `h`.  Equality tests in the planners compare positions
only, which the embedding does explicitly via `.current`. -/
structure SNode (C : Type) where
  current : Pos
  parent : Pos
  g : C
  h : C
deriving Repr, DecidableEq

/-- Python `dict` lookup on an insertion-ordered association list
(the embedding of the CLOSED hash table). -/
def lookupC {C : Type} (closed : List (Pos × SNode C)) (k : Pos) : Option (SNode C) :=
  match closed with
  | [] => none
  | (k0, v0) :: rest => if k0 = k then some v0 else lookupC rest k

/-- `list(CLOSED.values())` — the values of the closed map in insertion order. -/
def valuesC {C : Type} (closed : List (Pos × SNode C)) : List (SNode C) :=
  closed.map Prod.snd

/-- The first component of the Python triple returned by `plan`:
a number on success, the literal empty list `[]` on failure. -/
inductive CostOut (C : Type) where
  | num (c : C)
  | emptyList
deriving Repr, DecidableEq

/-- The triple returned by `plan`: `(cost, path, expand)`. -/
abbrev PlanResult (C : Type) : Type := CostOut C × List Pos × List (SNode C)

/-- Whether a position is inside the grid bounds `[0,xr) × [0,yr) × [0,zr)`
(the bounds test `lineOfSight` performs on its endpoints). -/
def inBoundsP (xr yr zr : ℤ) (p : Pos) : Prop :=
  0 ≤ p.1 ∧ p.1 < xr ∧ 0 ≤ p.2.1 ∧ p.2.1 < yr ∧ 0 ≤ p.2.2 ∧ p.2.2 < zr

instance (xr yr zr : ℤ) (p : Pos) : Decidable (inBoundsP xr yr zr p) := by
  unfold inBoundsP; infer_instance

/-- Modelled from the spec: the Euclidean distance between two cells, the
`dist` function and default heuristic of the planners' shared base class
`a_star.py`, which is not among the sources. -/
noncomputable def distE (a b : Pos) : ℝ :=
  Real.sqrt (((a.1 - b.1) ^ 2 + (a.2.1 - b.2.1) ^ 2 + (a.2.2 - b.2.2) ^ 2 : ℤ) : ℝ)

/-! ## Theta* line of sight (`ThetaStar.lineOfSight`)

The source first executes
`self.obstacles = self.obstacles.union(self.env.inner_obstacles)` —
a mutation of the planner's obstacle field — and then runs a
3D Bresenham-like traversal along the dominant axis.  The embedding
returns the boolean together with the new value of `self.obstacles`.
Each `while` loop advances the dominant coordinate by `±1` per iteration
and stops when it reaches the target coordinate, so it runs exactly
`|Δdominant|` iterations; the loops below recurse on that exact count. -/

/-- X-dominant Bresenham loop body of `lineOfSight`. -/
def losLoopX (obs : List Pos) (sx sy sz dx dy dz : ℤ) :
    ℕ → ℤ → ℤ → ℤ → ℤ → ℤ → Bool
  | 0, _, _, _, _, _ => true
  | n + 1, x, y, z, p1, p2 =>
    let y2 := if p1 ≥ 0 then y + sy else y
    let q1 := if p1 ≥ 0 then p1 - 2 * dx else p1
    let z2 := if p2 ≥ 0 then z + sz else z
    let q2 := if p2 ≥ 0 then p2 - 2 * dx else p2
    let xn := x + sx
    if (xn, y2, z2) ∈ obs then false
    else losLoopX obs sx sy sz dx dy dz n xn y2 z2 (q1 + 2 * dy) (q2 + 2 * dz)

/-- Y-dominant Bresenham loop body of `lineOfSight`. -/
def losLoopY (obs : List Pos) (sx sy sz dx dy dz : ℤ) :
    ℕ → ℤ → ℤ → ℤ → ℤ → ℤ → Bool
  | 0, _, _, _, _, _ => true
  | n + 1, x, y, z, p1, p2 =>
    let x2 := if p1 ≥ 0 then x + sx else x
    let q1 := if p1 ≥ 0 then p1 - 2 * dy else p1
    let z2 := if p2 ≥ 0 then z + sz else z
    let q2 := if p2 ≥ 0 then p2 - 2 * dy else p2
    let yn := y + sy
    if (x2, yn, z2) ∈ obs then false
    else losLoopY obs sx sy sz dx dy dz n x2 yn z2 (q1 + 2 * dx) (q2 + 2 * dz)

/-- Z-dominant Bresenham loop body of `lineOfSight`. -/
def losLoopZ (obs : List Pos) (sx sy sz dx dy dz : ℤ) :
    ℕ → ℤ → ℤ → ℤ → ℤ → ℤ → Bool
  | 0, _, _, _, _, _ => true
  | n + 1, x, y, z, p1, p2 =>
    let x2 := if p1 ≥ 0 then x + sx else x
    let q1 := if p1 ≥ 0 then p1 - 2 * dz else p1
    let y2 := if p2 ≥ 0 then y + sy else y
    let q2 := if p2 ≥ 0 then p2 - 2 * dz else p2
    let zn := z + sz
    if (x2, y2, zn) ∈ obs then false
    else losLoopZ obs sx sy sz dx dy dz n x2 y2 zn (q1 + 2 * dx) (q2 + 2 * dy)

/-- `ThetaStar.lineOfSight`, with the planner's obstacle field threaded as
state.  Returns the boolean result together with the new value of
`self.obstacles` (the source assigns the union at entry, before any other
check, so the mutation also happens on early `False` returns).  The
trailing "special debug" block of the source computes locals only and
does not affect the result, so it is omitted. -/
def lineOfSightS (xr yr zr : ℤ) (obstacles innerObstacles : List Pos)
    (n1 n2 : Pos) : Bool × List Pos :=
  let obs := obstacles.union innerObstacles
  let r : Bool :=
    if n1 ∈ obs ∨ n2 ∈ obs then false
    else
      let x1 := n1.1; let y1 := n1.2.1; let z1 := n1.2.2
      let x2 := n2.1; let y2 := n2.2.1; let z2 := n2.2.2
      if x1 < 0 ∨ x1 ≥ xr ∨ y1 < 0 ∨ y1 ≥ yr ∨ z1 < 0 ∨ z1 ≥ zr then false
      else if x2 < 0 ∨ x2 ≥ xr ∨ y2 < 0 ∨ y2 ≥ yr ∨ z2 < 0 ∨ z2 ≥ zr then false
      else
        let dx := |x2 - x1|; let dy := |y2 - y1|; let dz := |z2 - z1|
        let sx : ℤ := if x2 > x1 then 1 else -1
        let sy : ℤ := if y2 > y1 then 1 else -1
        let sz : ℤ := if z2 > z1 then 1 else -1
        if dx ≥ dy ∧ dx ≥ dz then
          losLoopX obs sx sy sz dx dy dz dx.toNat x1 y1 z1 (2 * dy - dx) (2 * dz - dx)
        else if dy ≥ dx ∧ dy ≥ dz then
          losLoopY obs sx sy sz dx dy dz dy.toNat x1 y1 z1 (2 * dx - dy) (2 * dz - dy)
        else
          losLoopZ obs sx sy sz dx dy dz dz.toNat x1 y1 z1 (2 * dx - dz) (2 * dy - dz)
  (r, obs)

/-- The boolean value of a `lineOfSight` query. -/
def losB (xr yr zr : ℤ) (obstacles innerObstacles : List Pos) (n1 n2 : Pos) : Bool :=
  (lineOfSightS xr yr zr obstacles innerObstacles n1 n2).1

/-! ## JPS jump search (`JPS.jump`, `JPS.detectForceNeighbor`)

`jump` recurses without any structural bound in the source; the embedding
takes a fuel argument, with `none` at fuel zero.  `jump` only decides on
positions (the `parent`/`h` bookkeeping it performs on the returned `Node`
never influences any branch, and the accumulated `g` of a returned jump
point equals `node.g` plus the straight-line cost of the run, recomputed
by `dist` at push time in the embedding of `plan`), so the embedding
returns the jump point's position. -/

/-- `JPS.detectForceNeighbor`: direction-class-specific forced-neighbor test.
The Python `for dy in [-1, 1]` loops with early `return True` are embedded
as disjunctions. -/
def detectForceNeighbor (obs : List Pos) (node motion : Pos) : Bool :=
  let x := node.1; let y := node.2.1; let z := node.2.2
  let xd := motion.1; let yd := motion.2.1; let zd := motion.2.2
  if xd ≠ 0 ∧ yd = 0 ∧ zd = 0 then
    decide (((x, y - 1, z) ∈ obs ∧ (x + xd, y - 1, z) ∉ obs) ∨
      ((x, y + 1, z) ∈ obs ∧ (x + xd, y + 1, z) ∉ obs) ∨
      ((x, y, z - 1) ∈ obs ∧ (x + xd, y, z - 1) ∉ obs) ∨
      ((x, y, z + 1) ∈ obs ∧ (x + xd, y, z + 1) ∉ obs))
  else if xd = 0 ∧ yd ≠ 0 ∧ zd = 0 then
    decide (((x - 1, y, z) ∈ obs ∧ (x - 1, y + yd, z) ∉ obs) ∨
      ((x + 1, y, z) ∈ obs ∧ (x + 1, y + yd, z) ∉ obs) ∨
      ((x, y, z - 1) ∈ obs ∧ (x, y + yd, z - 1) ∉ obs) ∨
      ((x, y, z + 1) ∈ obs ∧ (x, y + yd, z + 1) ∉ obs))
  else if xd = 0 ∧ yd = 0 ∧ zd ≠ 0 then
    decide (((x - 1, y, z) ∈ obs ∧ (x - 1, y, z + zd) ∉ obs) ∨
      ((x + 1, y, z) ∈ obs ∧ (x + 1, y, z + zd) ∉ obs) ∨
      ((x, y - 1, z) ∈ obs ∧ (x, y - 1, z + zd) ∉ obs) ∨
      ((x, y + 1, z) ∈ obs ∧ (x, y + 1, z + zd) ∉ obs))
  else if xd ≠ 0 ∧ yd ≠ 0 ∧ zd = 0 then
    decide (((x - xd, y, z) ∈ obs ∧ (x - xd, y + yd, z) ∉ obs) ∨
      ((x, y - yd, z) ∈ obs ∧ (x + xd, y - yd, z) ∉ obs))
  else if xd ≠ 0 ∧ yd = 0 ∧ zd ≠ 0 then
    decide (((x - xd, y, z) ∈ obs ∧ (x - xd, y, z + zd) ∉ obs) ∨
      ((x, y, z - zd) ∈ obs ∧ (x + xd, y, z - zd) ∉ obs))
  else if xd = 0 ∧ yd ≠ 0 ∧ zd ≠ 0 then
    decide (((x, y - yd, z) ∈ obs ∧ (x, y - yd, z + zd) ∉ obs) ∨
      ((x, y, z - zd) ∈ obs ∧ (x, y + yd, z - zd) ∉ obs))
  else if xd ≠ 0 ∧ yd ≠ 0 ∧ zd ≠ 0 then
    decide (((x - xd, y, z) ∈ obs ∧ (x - xd, y + yd, z + zd) ∉ obs) ∨
      ((x, y - yd, z) ∈ obs ∧ (x + xd, y - yd, z + zd) ∉ obs) ∨
      ((x, y, z - zd) ∈ obs ∧ (x + xd, y + yd, z - zd) ∉ obs))
  else false

/-- One unfolding of `JPS.jump`, parameterized by the function used for the
recursive calls.  Python truthiness of `self.jump(...)` results (`Node` vs
`None`) becomes `Option.isSome`, and the short-circuiting `or` becomes `||`. -/
def jumpBody (obs : List Pos) (goal : Pos) (recur : Pos → Pos → Option Pos)
    (node motion : Pos) : Option Pos :=
  let nn := padd node motion
  if nn ∈ obs then none
  else if nn = goal then some nn
  else
    let xd := motion.1; let yd := motion.2.1; let zd := motion.2.2
    let diagHit : Bool :=
      if xd ≠ 0 ∧ yd ≠ 0 ∧ zd = 0 then
        (recur nn (xd, 0, 0)).isSome || (recur nn (0, yd, 0)).isSome
      else if xd ≠ 0 ∧ yd = 0 ∧ zd ≠ 0 then
        (recur nn (xd, 0, 0)).isSome || (recur nn (0, 0, zd)).isSome
      else if xd = 0 ∧ yd ≠ 0 ∧ zd ≠ 0 then
        (recur nn (0, yd, 0)).isSome || (recur nn (0, 0, zd)).isSome
      else if xd ≠ 0 ∧ yd ≠ 0 ∧ zd ≠ 0 then
        (recur nn (xd, yd, 0)).isSome || (recur nn (xd, 0, zd)).isSome ||
          (recur nn (0, yd, zd)).isSome
      else false
    if diagHit then some nn
    else if detectForceNeighbor obs nn motion then some nn
    else recur nn motion

/-- `JPS.jump` with fuel: `jump obs goal (f+1) node motion` performs one
unfolding of the source recursion, spending one fuel unit per call. -/
def jump (obs : List Pos) (goal : Pos) : ℕ → Pos → Pos → Option Pos
  | 0, _, _ => none
  | f + 1, node, motion => jumpBody obs goal (jump obs goal f) node motion

/-! ## Path extraction (`ThetaStar.extractPath`)

The loop `while node.current != self.start.current` walks parent links;
on an arbitrary closed map the parent chain could cycle, so the embedding
recurses on fuel, `none` marking a walk that is still running.  The
`KeyError` raised by `closed_list[self.goal.current]` when the goal was
never closed is also embedded as `none`. -/

/-- The loop of `ThetaStar.extractPath`: accumulates cost and the path list
(in Python append order) and finally reverses the path. -/
def extractGo {C : Type} [AddCommMonoid C] (dist : Pos → Pos → C)
    (closed : List (Pos × SNode C)) (startPos : Pos) :
    ℕ → SNode C → C → List Pos → Option (C × List Pos)
  | 0, _, _, _ => none
  | f + 1, node, cost, path =>
    if node.current = startPos then some (cost, path.reverse)
    else
      match lookupC closed node.parent with
      | some np =>
        extractGo dist closed startPos f np (cost + dist node.current np.current)
          (path ++ [np.current])
      | none => some (cost, path.reverse)

/-- `ThetaStar.extractPath` (also the modelled `AStar.extractPath` used by
`JPS.plan`; `a_star.py` is not among the sources and the spec describes the
same parent-chain walk for it). -/
def extractPath {C : Type} [AddCommMonoid C] (dist : Pos → Pos → C)
    (closed : List (Pos × SNode C)) (startPos goalPos : Pos) (fuel : ℕ) :
    Option (C × List Pos) :=
  match lookupC closed goalPos with
  | some n => extractGo dist closed startPos fuel n 0 [n.current]
  | none => none

/-- Sum of `dist` over consecutive waypoint pairs of a path. -/
def pathCost {C : Type} [AddCommMonoid C] (dist : Pos → Pos → C) : List Pos → C
  | [] => 0
  | [_] => 0
  | a :: b :: rest => dist a b + pathCost dist (b :: rest)

/-! ## Neighbor expansion shared with A* (modelled)

`getNeighbor`, the 26-direction motion set and the corner-cutting rule
live in the missing `a_star.py`/environment sources; they are modelled
from the spec (§3, §4.3). -/

/-- Modelled from the spec: the fixed list of all 26 non-zero motion
offsets of `{-1,0,1}³`. -/
def motions : List Pos :=
  [(-1, -1, -1), (-1, -1, 0), (-1, -1, 1), (-1, 0, -1), (-1, 0, 0), (-1, 0, 1),
   (-1, 1, -1), (-1, 1, 0), (-1, 1, 1),
   (0, -1, -1), (0, -1, 0), (0, -1, 1), (0, 0, -1), (0, 0, 1),
   (0, 1, -1), (0, 1, 0), (0, 1, 1),
   (1, -1, -1), (1, -1, 0), (1, -1, 1), (1, 0, -1), (1, 0, 0), (1, 0, 1),
   (1, 1, -1), (1, 1, 0), (1, 1, 1)]

/-- Modelled from the spec: corner-cutting rejection — a diagonal move is
rejected when two of the orthogonal axis-projection cells adjacent to the
move are obstacles. -/
def cornerOk (obs : List Pos) (p m : Pos) : Bool :=
  let cells :=
    (if m.1 ≠ 0 then [padd p (m.1, 0, 0)] else []) ++
    (if m.2.1 ≠ 0 then [padd p (0, m.2.1, 0)] else []) ++
    (if m.2.2 ≠ 0 then [padd p (0, 0, m.2.2)] else [])
  decide ((cells.filter (fun c => decide (c ∈ obs))).length < 2)

/-- Modelled from the spec: a motion from `p` survives when the target cell
is in bounds, is not an obstacle, and does not cut a corner. -/
def allowedMove (xr yr zr : ℤ) (obs : List Pos) (p m : Pos) : Bool :=
  let q := padd p m
  decide (inBoundsP xr yr zr q) && !(decide (q ∈ obs)) && cornerOk obs p m

/-- Modelled from the spec: `AStar.getNeighbor` — one candidate successor
node per surviving motion (`node + motion`); the fields of the fresh node
other than its position are overwritten by the caller before use. -/
def getNeighbor {C : Type} [AddCommMonoid C] (dist : Pos → Pos → C)
    (xr yr zr : ℤ) (obs : List Pos) (node : SNode C) : List (SNode C) :=
  (motions.filter (fun m => allowedMove xr yr zr obs node.current m)).map
    (fun m =>
      { current := padd node.current m, parent := node.current,
        g := node.g + dist node.current (padd node.current m), h := node.h })

/-! ## Theta* plan (`ThetaStar.plan`, `ThetaStar.updateVertex`) -/

/-- `ThetaStar.updateVertex`: attempt the parent promotion of `node_c` to the
grandparent `node_p`; threads the obstacle state through the `lineOfSight`
query.  `leB` embeds the float comparison `<=` of the source. -/
def updateVertexS {C : Type} [AddCommMonoid C] (dist : Pos → Pos → C)
    (leB : C → C → Bool) (xr yr zr : ℤ) (inner : List Pos) (st : List Pos)
    (np nc : SNode C) : SNode C × List Pos :=
  let q := lineOfSightS xr yr zr st inner nc.current np.current
  if q.1 then
    if leB (np.g + dist nc.current np.current) nc.g then
      ({ nc with g := np.g + dist nc.current np.current, parent := np.current }, q.2)
    else (nc, q.2)
  else (nc, q.2)

/-- The per-neighbor processing of the `ThetaStar.plan` expansion loop:
set `parent`, `g` (path 1) and `h` of the fresh successor, then attempt the
grandparent promotion (path 2) when the expanded node's parent is closed;
returns the processed node with the new obstacle state. -/
def processNeighborTheta {C : Type} [AddCommMonoid C] (dist hf : Pos → Pos → C)
    (leB : C → C → Bool) (xr yr zr : ℤ) (inner : List Pos) (goalPos : Pos)
    (closed : List (Pos × SNode C)) (node : SNode C) (st : List Pos)
    (nb : SNode C) : SNode C × List Pos :=
  let n1 : SNode C :=
    { nb with parent := node.current,
              g := node.g + dist node.current nb.current,
              h := hf nb.current goalPos }
  match lookupC closed node.parent with
  | some np => updateVertexS dist leB xr yr zr inner st np n1
  | none => (n1, st)

/-- The `for node_n in self.getNeighbor(node)` loop of `ThetaStar.plan`:
returns the successor nodes pushed on OPEN (in push order) and the obstacle
state after the expansion.  A neighbor whose position is closed is skipped;
each survivor is processed by `processNeighborTheta`; when a survivor's
position equals the goal it is pushed and the loop breaks. -/
def expandGoTheta {C : Type} [AddCommMonoid C] (dist hf : Pos → Pos → C)
    (leB : C → C → Bool) (xr yr zr : ℤ) (inner : List Pos) (goalPos : Pos)
    (closed : List (Pos × SNode C)) (node : SNode C) :
    List (SNode C) → List Pos → List (SNode C) × List Pos
  | [], st => ([], st)
  | nb :: rest, st =>
    if (lookupC closed nb.current).isSome then
      expandGoTheta dist hf leB xr yr zr inner goalPos closed node rest st
    else
      let r := processNeighborTheta dist hf leB xr yr zr inner goalPos closed node st nb
      if r.1.current = goalPos then ([r.1], r.2)
      else
        let t := expandGoTheta dist hf leB xr yr zr inner goalPos closed node rest r.2
        (r.1 :: t.1, t.2)

/-- The `while OPEN` loop of `ThetaStar.plan`.  `pick` embeds `heapq.heappop`
(it receives the nonempty open list and returns the popped node and the
rest); open-list exhaustion returns the source's `[], [], []` triple, with
the first component the literal empty list, not the number `0`. -/
def planLoopTheta {C : Type} [AddCommMonoid C] (dist hf : Pos → Pos → C)
    (leB : C → C → Bool)
    (pick : SNode C → List (SNode C) → SNode C × List (SNode C))
    (xr yr zr : ℤ) (inner : List Pos) (startPos goalPos : Pos) :
    ℕ → List (SNode C) → List (Pos × SNode C) → List Pos → Option (PlanResult C)
  | 0, _, _, _ => none
  | f + 1, opn, closed, st =>
    match opn with
    | [] => some (CostOut.emptyList, [], [])
    | x :: xs =>
      let pk := pick x xs
      let node := pk.1
      if (lookupC closed node.current).isSome then
        planLoopTheta dist hf leB pick xr yr zr inner startPos goalPos f pk.2 closed st
      else if node.current = goalPos then
        let closed2 := closed ++ [(node.current, node)]
        match extractPath dist closed2 startPos goalPos (closed2.length + 1) with
        | some cp => some (CostOut.num cp.1, cp.2, valuesC closed2)
        | none => none
      else
        let e := expandGoTheta dist hf leB xr yr zr inner goalPos closed node
          (getNeighbor dist xr yr zr st node) st
        planLoopTheta dist hf leB pick xr yr zr inner startPos goalPos f
          (pk.2 ++ e.1) (closed ++ [(node.current, node)]) e.2

/-- `ThetaStar.plan`: starts with OPEN = `[self.start]` (the start node has
itself as parent and `g = 0`, modelled from the spec for the missing
`a_star.py` constructor), CLOSED empty, and the planner's obstacle field
equal to the environment's obstacle set. -/
def planTheta {C : Type} [AddCommMonoid C] (dist hf : Pos → Pos → C)
    (leB : C → C → Bool)
    (pick : SNode C → List (SNode C) → SNode C × List (SNode C))
    (xr yr zr : ℤ) (obstacles inner : List Pos) (startPos goalPos : Pos)
    (fuel : ℕ) : Option (PlanResult C) :=
  planLoopTheta dist hf leB pick xr yr zr inner startPos goalPos fuel
    [{ current := startPos, parent := startPos, g := 0, h := 0 }] [] obstacles

/-! ## JPS plan (`JPS.plan`) -/

/-- The jump-point collection loop of `JPS.plan`: one `jump` per motion;
results that exist and are not closed get parent and `h` set and enter
`jp_list` in motion order. -/
def jpList {C : Type} [AddCommMonoid C] (dist hf : Pos → Pos → C)
    (obs : List Pos) (goalPos : Pos) (jumpFuel : ℕ)
    (closed : List (Pos × SNode C)) (node : SNode C) : List (SNode C) :=
  motions.filterMap (fun m =>
    match jump obs goalPos jumpFuel node.current m with
    | some jp =>
      if (lookupC closed jp).isSome then none
      else some { current := jp, parent := node.current,
                  g := node.g + dist node.current jp, h := hf jp goalPos }
    | none => none)

/-- The push loop of `JPS.plan`: pushes each element of `jp_list` in order
and stops after pushing a node whose position is the goal. -/
def pushLoopJPS {C : Type} (goalPos : Pos) : List (SNode C) → List (SNode C)
  | [] => []
  | jp :: rest =>
    if jp.current = goalPos then [jp] else jp :: pushLoopJPS goalPos rest

/-- The `while OPEN` loop of `JPS.plan`; structure as in `planLoopTheta`.
The obstacle set is fixed for the whole run (`JPS` performs no
`lineOfSight` queries). -/
def planLoopJPS {C : Type} [AddCommMonoid C] (dist hf : Pos → Pos → C)
    (pick : SNode C → List (SNode C) → SNode C × List (SNode C))
    (obs : List Pos) (jumpFuel : ℕ) (startPos goalPos : Pos) :
    ℕ → List (SNode C) → List (Pos × SNode C) → Option (PlanResult C)
  | 0, _, _ => none
  | f + 1, opn, closed =>
    match opn with
    | [] => some (CostOut.emptyList, [], [])
    | x :: xs =>
      let pk := pick x xs
      let node := pk.1
      if (lookupC closed node.current).isSome then
        planLoopJPS dist hf pick obs jumpFuel startPos goalPos f pk.2 closed
      else if node.current = goalPos then
        let closed2 := closed ++ [(node.current, node)]
        match extractPath dist closed2 startPos goalPos (closed2.length + 1) with
        | some cp => some (CostOut.num cp.1, cp.2, valuesC closed2)
        | none => none
      else
        let pushed := pushLoopJPS goalPos (jpList dist hf obs goalPos jumpFuel closed node)
        planLoopJPS dist hf pick obs jumpFuel startPos goalPos f
          (pk.2 ++ pushed) (closed ++ [(node.current, node)])

/-- `JPS.plan`: OPEN starts as `[self.start]`, CLOSED empty. -/
def planJPS {C : Type} [AddCommMonoid C] (dist hf : Pos → Pos → C)
    (pick : SNode C → List (SNode C) → SNode C × List (SNode C))
    (obs : List Pos) (jumpFuel : ℕ) (startPos goalPos : Pos)
    (fuel : ℕ) : Option (PlanResult C) :=
  planLoopJPS dist hf pick obs jumpFuel startPos goalPos fuel
    [{ current := startPos, parent := startPos, g := 0, h := 0 }] []

/-- A concrete admissible `pick`: pop the first element.  Used for concrete
runs whose open list never holds two nodes at once, where every pop order
(in particular the `heapq` one) gives the same trace. -/
def pickHead {C : Type} (x : SNode C) (xs : List (SNode C)) :
    SNode C × List (SNode C) := (x, xs)

/-! ## Termination measure for the jump recursion (claim C4)

Proof devices, not part of the source: a wall predicate for grids whose
boundary cells are obstacles, and a lexicographic-style natural measure
that strictly decreases along every recursive call of `jump`. -/

/-- A cell of the boundary shell of the closed box
`[0, xr-1] × [0, yr-1] × [0, zr-1]`. -/
def isWallCell (xr yr zr : ℤ) (p : Pos) : Prop :=
  (0 ≤ p.1 ∧ p.1 ≤ xr - 1 ∧ 0 ≤ p.2.1 ∧ p.2.1 ≤ yr - 1 ∧
    0 ≤ p.2.2 ∧ p.2.2 ≤ zr - 1) ∧
  (p.1 = 0 ∨ p.1 = xr - 1 ∨ p.2.1 = 0 ∨ p.2.1 = yr - 1 ∨
    p.2.2 = 0 ∨ p.2.2 = zr - 1)

instance (xr yr zr : ℤ) (p : Pos) : Decidable (isWallCell xr yr zr p) := by
  unfold isWallCell; infer_instance

/-- Strictly inside the wall shell. -/
def insideBox (xr yr zr : ℤ) (p : Pos) : Prop :=
  0 < p.1 ∧ p.1 < xr - 1 ∧ 0 < p.2.1 ∧ p.2.1 < yr - 1 ∧ 0 < p.2.2 ∧ p.2.2 < zr - 1

instance (xr yr zr : ℤ) (p : Pos) : Decidable (insideBox xr yr zr p) := by
  unfold insideBox; infer_instance

/-- A unit direction component: each coordinate in `{-1, 0, 1}`. -/
def isUnitDir (d : Pos) : Prop :=
  (d.1 = -1 ∨ d.1 = 0 ∨ d.1 = 1) ∧ (d.2.1 = -1 ∨ d.2.1 = 0 ∨ d.2.1 = 1) ∧
    (d.2.2 = -1 ∨ d.2.2 = 0 ∨ d.2.2 = 1)

instance (d : Pos) : Decidable (isUnitDir d) := by
  unfold isUnitDir; infer_instance

/-- Steps from coordinate `n` to the wall coordinate (`0` or `hi`) in the
direction `di`; `dflt` is returned for a zero component. -/
def axSteps (hi n di : ℤ) (dflt : ℕ) : ℕ :=
  if 0 < di then (hi - n).toNat else if di < 0 then n.toNat else dflt

/-- Number of non-zero axes of a direction. -/
def nAxes (d : Pos) : ℕ :=
  (if d.1 ≠ 0 then 1 else 0) + (if d.2.1 ≠ 0 then 1 else 0) +
    (if d.2.2 ≠ 0 then 1 else 0)

/-- Uniform run bound of a grid. -/
def gridD (xr yr zr : ℤ) : ℕ := (xr + yr + zr).toNat

/-- Remaining steps along `d` before some moving coordinate reaches a wall. -/
def runSteps (xr yr zr : ℤ) (n d : Pos) : ℕ :=
  min (axSteps (xr - 1) n.1 d.1 (gridD xr yr zr))
    (min (axSteps (yr - 1) n.2.1 d.2.1 (gridD xr yr zr))
      (axSteps (zr - 1) n.2.2 d.2.2 (gridD xr yr zr)))

/-- The termination measure of `jump`: dominated by the number of non-zero
axes, refined by the remaining run length. -/
def jumpMeasure (xr yr zr : ℤ) (n d : Pos) : ℕ :=
  (nAxes d - 1) * (gridD xr yr zr + 1) + runSteps xr yr zr n d

/-- The directions a `jumpBody` unfolding at direction `d` may recurse on. -/
def usedDirs (d : Pos) : List Pos :=
  let xd := d.1; let yd := d.2.1; let zd := d.2.2
  (if xd ≠ 0 ∧ yd ≠ 0 ∧ zd = 0 then [(xd, 0, 0), (0, yd, 0)]
   else if xd ≠ 0 ∧ yd = 0 ∧ zd ≠ 0 then [(xd, 0, 0), (0, 0, zd)]
   else if xd = 0 ∧ yd ≠ 0 ∧ zd ≠ 0 then [(0, yd, 0), (0, 0, zd)]
   else if xd ≠ 0 ∧ yd ≠ 0 ∧ zd ≠ 0 then [(xd, yd, 0), (xd, 0, zd), (0, yd, zd)]
   else []) ++ [d]

/-- The boundary shell of the `3 × 3 × 3` grid (all cells of the closed box
except the single interior cell `(1,1,1)`), used as a concrete obstacle
set. -/
def wallCells3 : List Pos :=
  [(0, 0, 0), (0, 0, 1), (0, 0, 2), (0, 1, 0), (0, 1, 1), (0, 1, 2), (0, 2, 0),
   (0, 2, 1), (0, 2, 2), (1, 0, 0), (1, 0, 1), (1, 0, 2), (1, 1, 0), (1, 1, 2),
   (1, 2, 0), (1, 2, 1), (1, 2, 2), (2, 0, 0), (2, 0, 1), (2, 0, 2), (2, 1, 0),
   (2, 1, 1), (2, 1, 2), (2, 2, 0), (2, 2, 1), (2, 2, 2)]

/-! # Theorems -/

lemma losLoopX_nil (sx sy sz dx dy dz : ℤ) :
    ∀ (n : ℕ) (x y z p1 p2 : ℤ), losLoopX [] sx sy sz dx dy dz n x y z p1 p2 = true := by
  intro n
  induction n with
  | zero => intro x y z p1 p2; rfl
  | succ m ih => intro x y z p1 p2; simp [losLoopX, ih]

lemma losLoopY_nil (sx sy sz dx dy dz : ℤ) :
    ∀ (n : ℕ) (x y z p1 p2 : ℤ), losLoopY [] sx sy sz dx dy dz n x y z p1 p2 = true := by
  intro n
  induction n with
  | zero => intro x y z p1 p2; rfl
  | succ m ih => intro x y z p1 p2; simp [losLoopY, ih]

lemma losLoopZ_nil (sx sy sz dx dy dz : ℤ) :
    ∀ (n : ℕ) (x y z p1 p2 : ℤ), losLoopZ [] sx sy sz dx dy dz n x y z p1 p2 = true := by
  intro n
  induction n with
  | zero => intro x y z p1 p2; rfl
  | succ m ih => intro x y z p1 p2; simp [losLoopZ, ih]

/-- With no obstacles at all, a `lineOfSight` query returns exactly the
conjunction of the two endpoint bounds checks. -/
lemma losB_nil (xr yr zr : ℤ) (p q : Pos) :
    losB xr yr zr [] [] p q =
      (decide (inBoundsP xr yr zr p) && decide (inBoundsP xr yr zr q)) := by
  have hu : (([] : List Pos).union []) = [] := rfl
  unfold losB lineOfSightS
  simp only [hu, List.not_mem_nil, or_self, if_false]
  by_cases hp : inBoundsP xr yr zr p
  · by_cases hq : inBoundsP xr yr zr q
    · have hp2 : ¬(p.1 < 0 ∨ p.1 ≥ xr ∨ p.2.1 < 0 ∨ p.2.1 ≥ yr ∨ p.2.2 < 0 ∨ p.2.2 ≥ zr) := by
        unfold inBoundsP at hp; omega
      have hq2 : ¬(q.1 < 0 ∨ q.1 ≥ xr ∨ q.2.1 < 0 ∨ q.2.1 ≥ yr ∨ q.2.2 < 0 ∨ q.2.2 ≥ zr) := by
        unfold inBoundsP at hq; omega
      simp only [hp2, hq2, if_false, decide_eq_true hp, decide_eq_true hq, Bool.and_true]
      split_ifs <;> simp [losLoopX_nil, losLoopY_nil, losLoopZ_nil]
    · have hq2 : q.1 < 0 ∨ q.1 ≥ xr ∨ q.2.1 < 0 ∨ q.2.1 ≥ yr ∨ q.2.2 < 0 ∨ q.2.2 ≥ zr := by
        unfold inBoundsP at hq; omega
      have hp2 : ¬(p.1 < 0 ∨ p.1 ≥ xr ∨ p.2.1 < 0 ∨ p.2.1 ≥ yr ∨ p.2.2 < 0 ∨ p.2.2 ≥ zr) := by
        unfold inBoundsP at hp; omega
      simp [hp2, hq2, hq]
  · have hp2 : p.1 < 0 ∨ p.1 ≥ xr ∨ p.2.1 < 0 ∨ p.2.1 ≥ yr ∨ p.2.2 < 0 ∨ p.2.2 ≥ zr := by
      unfold inBoundsP at hp; omega
    simp [hp2, hp]

/-- C5 counterexample input: an obstacle at `(1,1,0)` on a `3 × 2 × 1` grid.
The X-dominant rasterization from `(0,0,0)` to `(2,1,0)` visits `(1,1,0)`,
while the reverse traversal visits `(1,0,0)`. -/
theorem C5_lineOfSight_not_symmetric :
    losB 3 2 1 [] [(1, 1, 0)] (0, 0, 0) (2, 1, 0) = false ∧
    losB 3 2 1 [] [(1, 1, 0)] (2, 1, 0) (0, 0, 0) = true := by
  constructor <;> decide

/-- C5 (amended): `lineOfSight` is not symmetric in general (the Bresenham
traversal visits different cells in the two directions); symmetry does hold
when the combined obstacle set is empty, where both directions reduce to the
symmetric conjunction of the endpoint bounds checks. -/
theorem C5_lineOfSight_symmetric_no_obstacles (xr yr zr : ℤ) (p q : Pos) :
    losB xr yr zr [] [] p q = losB xr yr zr [] [] q p := by
  rw [losB_nil, losB_nil, Bool.and_comm]

/-- C6 counterexample input: `(2,0,0)` is not an obstacle (the obstacle set is
empty) but lies outside the `1 × 1 × 1` grid, and `lineOfSight((2,0,0),(2,0,0))`
returns `False` because of the endpoint bounds check. -/
theorem C6_trivial_los_needs_bounds :
    losB 1 1 1 [] [] (2, 0, 0) (2, 0, 0) = false ∧
    ((2, 0, 0) : Pos) ∉ (([] : List Pos).union []) := by
  constructor <;> decide

/-- C6 (amended): for every position `p` that is in bounds and not in the
combined obstacle set, `lineOfSight(p, p)` returns `True` (all coordinate
deltas are zero, so the X-dominant loop runs zero iterations). -/
theorem C6_trivial_los (xr yr zr : ℤ) (obstacles inner : List Pos) (p : Pos)
    (hmem : p ∉ obstacles.union inner) (hb : inBoundsP xr yr zr p) :
    losB xr yr zr obstacles inner p p = true := by
  have hb2 : ¬(p.1 < 0 ∨ p.1 ≥ xr ∨ p.2.1 < 0 ∨ p.2.1 ≥ yr ∨ p.2.2 < 0 ∨ p.2.2 ≥ zr) := by
    unfold inBoundsP at hb; omega
  unfold losB lineOfSightS
  simp only [hmem, or_self, if_false, hb2, sub_self, abs_zero, ge_iff_le, le_refl,
    and_self, if_true, Int.toNat_zero]
  rfl

theorem C6_trivial_los_witness :
    ((1, 1, 1) : Pos) ∉ ([((0, 0, 0) : Pos)].union []) ∧ inBoundsP 3 3 3 (1, 1, 1) ∧
    losB 3 3 3 [(0, 0, 0)] [] (1, 1, 1) (1, 1, 1) = true :=
  ⟨by decide, by decide, C6_trivial_los 3 3 3 [(0, 0, 0)] [] (1, 1, 1) (by decide) (by decide)⟩

/-- C9 counterexample input: a `lineOfSight` query on a planner whose
`obstacles` field is empty and whose environment has `inner_obstacles`
`[(0,0,0)]` leaves `(0,0,0)` in the planner's obstacle field afterwards:
the query mutates planner state. -/
theorem C9_lineOfSight_mutates_obstacles :
    ((0, 0, 0) : Pos) ∈ (lineOfSightS 3 3 3 [] [(0, 0, 0)] (1, 1, 1) (1, 1, 1)).2 ∧
    ((0, 0, 0) : Pos) ∉ ([] : List Pos) := by
  constructor <;> decide

/-- C9 (amended): each `lineOfSight` query overwrites the planner's obstacle
set with its union with `env.inner_obstacles`; afterwards a position is in the
field iff it was in the old field or in `inner_obstacles`, and a second query
leaves the field's membership unchanged (the accumulation stabilizes after the
first query).  The open and closed lists are locals of `plan` and are not part
of the planner state. -/
theorem C9_lineOfSight_state_effect (xr yr zr : ℤ) (obstacles inner : List Pos)
    (n1 n2 m1 m2 : Pos) :
    (∀ p : Pos, p ∈ (lineOfSightS xr yr zr obstacles inner n1 n2).2 ↔
      (p ∈ obstacles ∨ p ∈ inner)) ∧
    (∀ p : Pos,
      p ∈ (lineOfSightS xr yr zr (lineOfSightS xr yr zr obstacles inner n1 n2).2 inner m1 m2).2 ↔
      p ∈ (lineOfSightS xr yr zr obstacles inner n1 n2).2) := by
  have h1 : ∀ (o : List Pos) (a b : Pos), (lineOfSightS xr yr zr o inner a b).2 = o.union inner :=
    fun o a b => rfl
  have hm : ∀ (l r : List Pos) (a : Pos), a ∈ l.union r ↔ a ∈ l ∨ a ∈ r :=
    fun l r a => List.mem_union_iff
  constructor
  · intro p; rw [h1]; exact hm _ _ _
  · intro p; rw [h1, h1, hm, hm]
    tauto

lemma lookupC_wf {C : Type} {closed : List (Pos × SNode C)}
    (wf : ∀ pr ∈ closed, (pr.2).current = pr.1) {k : Pos} {v : SNode C}
    (h : lookupC closed k = some v) : v.current = k := by
  induction closed with
  | nil => simp [lookupC] at h
  | cons pr rest ih =>
    obtain ⟨k0, v0⟩ := pr
    rw [lookupC] at h
    by_cases hk : k0 = k
    · rw [if_pos hk] at h
      have hv : v0 = v := Option.some.inj h
      subst hv
      have h0 := wf (k0, v0) (by simp)
      rw [← hk]
      exact h0
    · rw [if_neg hk] at h
      exact ih (fun pr hpr => wf pr (List.mem_cons_of_mem _ hpr)) h

lemma pathCost_singleton {C : Type} [AddCommMonoid C] (dist : Pos → Pos → C) (x : Pos) :
    pathCost dist [x] = 0 := rfl

lemma pathCost_concat {C : Type} [AddCommMonoid C] (dist : Pos → Pos → C) :
    ∀ (l : List Pos) (a x : Pos), l.getLast? = some a →
      pathCost dist (l ++ [x]) = pathCost dist l + dist a x := by
  intro l
  induction l with
  | nil => intro a x h; simp at h
  | cons b t ih =>
    intro a x h
    cases t with
    | nil =>
      obtain rfl : b = a := by simpa using h
      simp [pathCost, pathCost_singleton]
    | cons cc t2 =>
      have h2 : (cc :: t2).getLast? = some a := by
        rwa [List.getLast?_cons_cons] at h
      have e1 : (b :: cc :: t2) ++ [x] = b :: (cc :: (t2 ++ [x])) := by simp
      rw [e1]
      have e2 : pathCost dist (b :: cc :: (t2 ++ [x])) =
          dist b cc + pathCost dist (cc :: (t2 ++ [x])) := rfl
      have e3 : cc :: (t2 ++ [x]) = (cc :: t2) ++ [x] := by simp
      rw [e2, e3, ih a x h2]
      have e4 : pathCost dist (b :: cc :: t2) = dist b cc + pathCost dist (cc :: t2) := rfl
      rw [e4, add_assoc]

lemma pathCost_reverse {C : Type} [AddCommMonoid C] (dist : Pos → Pos → C)
    (hsym : ∀ a b, dist a b = dist b a) :
    ∀ l : List Pos, pathCost dist l.reverse = pathCost dist l := by
  intro l
  induction l with
  | nil => rfl
  | cons a t ih =>
    cases t with
    | nil => rfl
    | cons b t2 =>
      have hrev : (a :: b :: t2).reverse = (b :: t2).reverse ++ [a] := by simp
      have hlast : ((b :: t2).reverse).getLast? = some b := by
        rw [List.getLast?_reverse]; rfl
      rw [hrev, pathCost_concat dist _ b a hlast, ih, pathCost, hsym, add_comm]

/-- Cost soundness of the extraction loop: whatever it returns, the cost
accumulator equals the pairwise `dist`-sum over the returned path. -/
lemma extractGo_cost {C : Type} [AddCommMonoid C] (dist : Pos → Pos → C)
    (hsym : ∀ a b, dist a b = dist b a)
    (closed : List (Pos × SNode C)) (startPos : Pos) :
    ∀ (f : ℕ) (node : SNode C) (cost : C) (path : List Pos) (c : C) (p : List Pos),
      path.getLast? = some node.current →
      cost = pathCost dist path →
      extractGo dist closed startPos f node cost path = some (c, p) →
      c = pathCost dist p := by
  intro f
  induction f with
  | zero => intro node cost path c p _ _ h; simp [extractGo] at h
  | succ f ih =>
    intro node cost path c p hlast hcost h
    rw [extractGo] at h
    by_cases hs : node.current = startPos
    · rw [if_pos hs] at h
      obtain ⟨h1, h2⟩ := Prod.mk.injEq _ _ _ _ ▸ Option.some.inj h
      subst h1; subst h2
      rw [hcost, pathCost_reverse dist hsym]
    · rw [if_neg hs] at h
      cases hl : lookupC closed node.parent with
      | none =>
        rw [hl] at h
        obtain ⟨h1, h2⟩ := Prod.mk.injEq _ _ _ _ ▸ Option.some.inj h
        subst h1; subst h2
        rw [hcost, pathCost_reverse dist hsym]
      | some np =>
        rw [hl] at h
        refine ih np _ _ c p (by simp) ?_ h
        rw [pathCost_concat dist path node.current np.current hlast, hcost]

/-- Shape of the extraction loop's result: the reversed path ends at the
first accumulated position, and it starts at the start position unless the
walk stopped at a closed node whose parent is not closed (silent
truncation). -/
lemma extractGo_shape {C : Type} [AddCommMonoid C] (dist : Pos → Pos → C)
    (closed : List (Pos × SNode C)) (startPos : Pos)
    (wf : ∀ pr ∈ closed, (pr.2).current = pr.1) :
    ∀ (f : ℕ) (node : SNode C) (cost : C) (path : List Pos) (c : C) (p : List Pos) (h0 : Pos),
      lookupC closed node.current = some node →
      path.head? = some h0 →
      path.getLast? = some node.current →
      extractGo dist closed startPos f node cost path = some (c, p) →
      p.getLast? = some h0 ∧
        (p.head? = some startPos ∨
          ∃ stopN : SNode C, p.head? = some stopN.current ∧ stopN.current ≠ startPos ∧
            lookupC closed stopN.current = some stopN ∧
            lookupC closed stopN.parent = none) := by
  intro f
  induction f with
  | zero => intro node cost path c p h0 _ _ _ h; simp [extractGo] at h
  | succ f ih =>
    intro node cost path c p h0 hmem hhead hlast h
    rw [extractGo] at h
    by_cases hs : node.current = startPos
    · rw [if_pos hs] at h
      obtain ⟨h1, h2⟩ := Prod.mk.injEq _ _ _ _ ▸ Option.some.inj h
      subst h2
      refine ⟨by rw [List.getLast?_reverse, hhead], Or.inl ?_⟩
      rw [List.head?_reverse, hlast, hs]
    · rw [if_neg hs] at h
      cases hl : lookupC closed node.parent with
      | none =>
        rw [hl] at h
        obtain ⟨h1, h2⟩ := Prod.mk.injEq _ _ _ _ ▸ Option.some.inj h
        subst h2
        refine ⟨by rw [List.getLast?_reverse, hhead], Or.inr ⟨node, ?_, hs, hmem, hl⟩⟩
        rw [List.head?_reverse, hlast]
      | some np =>
        rw [hl] at h
        have hnp : np.current = node.parent := lookupC_wf wf hl
        have hmem2 : lookupC closed np.current = some np := by rw [hnp]; exact hl
        have hne : path ≠ [] := by
          intro hnil; rw [hnil] at hhead; simp at hhead
        refine ih np _ _ c p h0 hmem2 ?_ (by simp) h
        rw [List.head?_append, hhead]; rfl

/-- C2 counterexample input: a closed map holding only the goal position
`(1,0,0)` with (unclosed) parent `(7,7,7)`; the extraction returns the
truncated one-element path `[(1,0,0)]` with cost `0` instead of failing,
and that path does not start at the start position `(0,0,0)`. -/
theorem C2_extract_truncates_silently :
    extractPath distE [((1, 0, 0), ⟨(1, 0, 0), (7, 7, 7), (0 : ℝ), 0⟩)]
      (0, 0, 0) (1, 0, 0) 5 = some (0, [(1, 0, 0)]) ∧
    ((1, 0, 0) : Pos) ≠ (0, 0, 0) := by
  constructor
  · rfl
  · decide

/-- C2 (amended): for every closed map whose entries are keyed by their
node's position, a completed extraction returns a non-empty path whose last
element is the goal position; the path's first element is the start
position, unless some node's parent link refers to a position absent from
the closed map, in which case the walk silently stops there and the path
begins at that node's position instead of the start (no explicit failure is
raised). -/
theorem C2_extractPath_endpoints {C : Type} [AddCommMonoid C] (dist : Pos → Pos → C)
    (closed : List (Pos × SNode C)) (startPos goalPos : Pos) (fuel : ℕ)
    (c : C) (p : List Pos)
    (wf : ∀ pr ∈ closed, (pr.2).current = pr.1)
    (h : extractPath dist closed startPos goalPos fuel = some (c, p)) :
    p ≠ [] ∧ p.getLast? = some goalPos ∧
      (p.head? = some startPos ∨
        ∃ stopN : SNode C, p.head? = some stopN.current ∧ stopN.current ≠ startPos ∧
          lookupC closed stopN.current = some stopN ∧
          lookupC closed stopN.parent = none) := by
  rw [extractPath] at h
  cases hg : lookupC closed goalPos with
  | none => rw [hg] at h; simp at h
  | some n0 =>
    rw [hg] at h
    have hn0 : n0.current = goalPos := lookupC_wf wf hg
    have hmem : lookupC closed n0.current = some n0 := by rw [hn0]; exact hg
    have := extractGo_shape dist closed startPos wf fuel n0 0 [n0.current] c p
      n0.current hmem (by rfl) (by rfl) h
    refine ⟨?_, by rw [this.1, hn0], this.2⟩
    intro hnil
    rw [hnil] at this
    simp at this

theorem C2_extractPath_endpoints_witness :
    (∀ pr ∈ [(((0, 0, 0) : Pos), (⟨(0, 0, 0), (0, 0, 0), (0 : ℕ), 0⟩ : SNode ℕ)),
        ((1, 0, 0), ⟨(1, 0, 0), (0, 0, 0), 0, 0⟩)], (pr.2).current = pr.1) ∧
    ([(0, 0, 0), (1, 0, 0)] ≠ ([] : List Pos) ∧
      [((0, 0, 0) : Pos), (1, 0, 0)].getLast? = some (1, 0, 0) ∧
      (([((0, 0, 0) : Pos), (1, 0, 0)].head? = some (0, 0, 0)) ∨
        ∃ stopN : SNode ℕ, [((0, 0, 0) : Pos), (1, 0, 0)].head? = some stopN.current ∧
          stopN.current ≠ (0, 0, 0) ∧
          lookupC [(((0, 0, 0) : Pos), (⟨(0, 0, 0), (0, 0, 0), (0 : ℕ), 0⟩ : SNode ℕ)),
            ((1, 0, 0), ⟨(1, 0, 0), (0, 0, 0), 0, 0⟩)] stopN.current = some stopN ∧
          lookupC [(((0, 0, 0) : Pos), (⟨(0, 0, 0), (0, 0, 0), (0 : ℕ), 0⟩ : SNode ℕ)),
            ((1, 0, 0), ⟨(1, 0, 0), (0, 0, 0), 0, 0⟩)] stopN.parent = none)) :=
  ⟨by decide,
   C2_extractPath_endpoints (fun _ _ => (0 : ℕ))
     [(((0, 0, 0) : Pos), (⟨(0, 0, 0), (0, 0, 0), (0 : ℕ), 0⟩ : SNode ℕ)),
      ((1, 0, 0), ⟨(1, 0, 0), (0, 0, 0), 0, 0⟩)]
     (0, 0, 0) (1, 0, 0) 5 0 [(0, 0, 0), (1, 0, 0)] (by decide) (by decide)⟩

lemma distE_symm (a b : Pos) : distE a b = distE b a := by
  unfold distE
  congr 1
  push_cast
  ring

/-- Cost soundness of `extractPath`: the returned cost is the pairwise
`dist`-sum over the returned path. -/
lemma extractPath_cost {C : Type} [AddCommMonoid C] (dist : Pos → Pos → C)
    (hsym : ∀ a b, dist a b = dist b a)
    (closed : List (Pos × SNode C)) (startPos goalPos : Pos) (fuel : ℕ)
    (c : C) (p : List Pos)
    (h : extractPath dist closed startPos goalPos fuel = some (c, p)) :
    c = pathCost dist p := by
  rw [extractPath] at h
  cases hg : lookupC closed goalPos with
  | none => rw [hg] at h; simp at h
  | some n0 =>
    rw [hg] at h
    exact extractGo_cost dist hsym closed startPos fuel n0 0 [n0.current] c p rfl
      (pathCost_singleton dist n0.current).symm h

/-- Every successful return of the Theta* loop carries a cost equal to the
pairwise `dist`-sum of the returned path. -/
lemma planLoopTheta_cost {C : Type} [AddCommMonoid C] (dist hf : Pos → Pos → C)
    (leB : C → C → Bool)
    (pick : SNode C → List (SNode C) → SNode C × List (SNode C))
    (xr yr zr : ℤ) (inner : List Pos) (startPos goalPos : Pos)
    (hsym : ∀ a b, dist a b = dist b a) :
    ∀ (fuel : ℕ) (opn : List (SNode C)) (closed : List (Pos × SNode C))
      (st : List Pos) (c : C) (p : List Pos) (e : List (SNode C)),
      planLoopTheta dist hf leB pick xr yr zr inner startPos goalPos fuel opn closed st =
        some (CostOut.num c, p, e) →
      c = pathCost dist p := by
  intro fuel
  induction fuel with
  | zero => intro opn closed st c p e h; simp [planLoopTheta] at h
  | succ f ih =>
    intro opn closed st c p e h
    cases opn with
    | nil =>
      rw [planLoopTheta] at h
      obtain ⟨h1, _, _⟩ := Prod.mk.injEq _ _ _ _ ▸ Option.some.inj h
      exact absurd h1 (by intro hx; exact CostOut.noConfusion hx)
    | cons x xs =>
      rw [planLoopTheta] at h
      simp only [] at h
      by_cases hcl : (lookupC closed (pick x xs).1.current).isSome
      · rw [if_pos hcl] at h
        exact ih _ _ _ c p e h
      · rw [if_neg hcl] at h
        by_cases hgoal : (pick x xs).1.current = goalPos
        · rw [if_pos hgoal] at h
          cases hext : extractPath dist (closed ++ [((pick x xs).1.current, (pick x xs).1)])
              startPos goalPos ((closed ++ [((pick x xs).1.current, (pick x xs).1)]).length + 1) with
          | none => rw [hext] at h; simp at h
          | some cp =>
            rw [hext] at h
            dsimp only at h
            have h' := Option.some.inj h
            rw [Prod.mk.injEq, Prod.mk.injEq] at h'
            obtain ⟨h1, h2, h3⟩ := h'
            have hc : cp.1 = c := by injection h1
            rw [← hc, ← h2]
            exact extractPath_cost dist hsym _ startPos goalPos _ cp.1 cp.2
              (by rw [hext])
        · rw [if_neg hgoal] at h
          exact ih _ _ _ c p e h

/-- C3: for every completed Theta* planning call that returns a numeric
cost, that cost equals the sum of Euclidean distances between consecutive
waypoints of the returned path. -/
theorem C3_theta_cost_sums_euclidean (hf : Pos → Pos → ℝ) (leB : ℝ → ℝ → Bool)
    (pick : SNode ℝ → List (SNode ℝ) → SNode ℝ × List (SNode ℝ))
    (xr yr zr : ℤ) (obstacles inner : List Pos) (s g : Pos) (fuel : ℕ)
    (c : ℝ) (p : List Pos) (e : List (SNode ℝ))
    (h : planTheta distE hf leB pick xr yr zr obstacles inner s g fuel =
      some (CostOut.num c, p, e)) :
    c = pathCost distE p :=
  planLoopTheta_cost distE hf leB pick xr yr zr inner s g distE_symm fuel _ _ _ c p e h

theorem C3_theta_cost_sums_euclidean_witness :
    planTheta distE (fun _ _ => (0 : ℝ)) (fun _ _ => false) pickHead 2 1 1 [] []
      (0, 0, 0) (1, 0, 0) 4 =
      some (CostOut.num ((0 : ℝ) + distE (1, 0, 0) (0, 0, 0)), [(0, 0, 0), (1, 0, 0)],
        [⟨(0, 0, 0), (0, 0, 0), 0, 0⟩,
         ⟨(1, 0, 0), (0, 0, 0), (0 : ℝ) + distE (0, 0, 0) (1, 0, 0), 0⟩]) ∧
    (0 : ℝ) + distE (1, 0, 0) (0, 0, 0) = pathCost distE [(0, 0, 0), (1, 0, 0)] :=
  ⟨rfl,
   C3_theta_cost_sums_euclidean (fun _ _ => (0 : ℝ)) (fun _ _ => false) pickHead
     2 1 1 [] [] (0, 0, 0) (1, 0, 0) 4 _ _ _ rfl⟩

/-- Every completed Theta* loop either reports the failure triple
`([], [], [])` or a numeric cost with the goal among the expanded
positions. -/
lemma planLoopTheta_outcome {C : Type} [AddCommMonoid C] (dist hf : Pos → Pos → C)
    (leB : C → C → Bool)
    (pick : SNode C → List (SNode C) → SNode C × List (SNode C))
    (xr yr zr : ℤ) (inner : List Pos) (startPos goalPos : Pos) :
    ∀ (fuel : ℕ) (opn : List (SNode C)) (closed : List (Pos × SNode C))
      (st : List Pos) (r : PlanResult C),
      planLoopTheta dist hf leB pick xr yr zr inner startPos goalPos fuel opn closed st =
        some r →
      r = (CostOut.emptyList, [], []) ∨
        ∃ q, r.1 = CostOut.num q ∧ goalPos ∈ r.2.2.map SNode.current := by
  intro fuel
  induction fuel with
  | zero => intro opn closed st r h; simp [planLoopTheta] at h
  | succ f ih =>
    intro opn closed st r h
    cases opn with
    | nil =>
      rw [planLoopTheta] at h
      exact Or.inl (Option.some.inj h).symm
    | cons x xs =>
      rw [planLoopTheta] at h
      simp only [] at h
      by_cases hcl : (lookupC closed (pick x xs).1.current).isSome
      · rw [if_pos hcl] at h
        exact ih _ _ _ r h
      · rw [if_neg hcl] at h
        by_cases hgoal : (pick x xs).1.current = goalPos
        · rw [if_pos hgoal] at h
          cases hext : extractPath dist (closed ++ [((pick x xs).1.current, (pick x xs).1)])
              startPos goalPos ((closed ++ [((pick x xs).1.current, (pick x xs).1)]).length + 1) with
          | none => rw [hext] at h; simp at h
          | some cp =>
            rw [hext] at h
            have hr := (Option.some.inj h).symm
            refine Or.inr ⟨cp.1, by rw [hr], ?_⟩
            rw [hr]
            simp only [valuesC, List.map_append, List.map_map]
            rw [List.mem_append]
            right
            simp [hgoal]
        · rw [if_neg hgoal] at h
          exact ih _ _ _ r h

/-- Same outcome dichotomy for the JPS loop. -/
lemma planLoopJPS_outcome {C : Type} [AddCommMonoid C] (dist hf : Pos → Pos → C)
    (pick : SNode C → List (SNode C) → SNode C × List (SNode C))
    (obs : List Pos) (jumpFuel : ℕ) (startPos goalPos : Pos) :
    ∀ (fuel : ℕ) (opn : List (SNode C)) (closed : List (Pos × SNode C))
      (r : PlanResult C),
      planLoopJPS dist hf pick obs jumpFuel startPos goalPos fuel opn closed = some r →
      r = (CostOut.emptyList, [], []) ∨
        ∃ q, r.1 = CostOut.num q ∧ goalPos ∈ r.2.2.map SNode.current := by
  intro fuel
  induction fuel with
  | zero => intro opn closed r h; simp [planLoopJPS] at h
  | succ f ih =>
    intro opn closed r h
    cases opn with
    | nil =>
      rw [planLoopJPS] at h
      exact Or.inl (Option.some.inj h).symm
    | cons x xs =>
      rw [planLoopJPS] at h
      simp only [] at h
      by_cases hcl : (lookupC closed (pick x xs).1.current).isSome
      · rw [if_pos hcl] at h
        exact ih _ _ r h
      · rw [if_neg hcl] at h
        by_cases hgoal : (pick x xs).1.current = goalPos
        · rw [if_pos hgoal] at h
          cases hext : extractPath dist (closed ++ [((pick x xs).1.current, (pick x xs).1)])
              startPos goalPos ((closed ++ [((pick x xs).1.current, (pick x xs).1)]).length + 1) with
          | none => rw [hext] at h; simp at h
          | some cp =>
            rw [hext] at h
            have hr := (Option.some.inj h).symm
            refine Or.inr ⟨cp.1, by rw [hr], ?_⟩
            rw [hr]
            simp only [valuesC, List.map_append, List.map_map]
            rw [List.mem_append]
            right
            simp [hgoal]
        · rw [if_neg hgoal] at h
          exact ih _ _ r h

/-- C1 counterexample input: a Theta* run on a `1 × 1 × 1` grid with start
`(0,0,0)` and unreachable goal `(9,9,9)`: the start has no in-bounds
neighbors, the open list empties, and `plan` returns `[], [], []` — the
cost slot holds the empty list, not the number `0`. -/
theorem C1_failure_cost_is_empty_list_not_zero :
    planTheta distE distE (fun _ _ => false) pickHead 1 1 1 [] [] (0, 0, 0) (9, 9, 9) 3 =
      some (CostOut.emptyList, [], []) ∧
    (CostOut.emptyList : CostOut ℝ) ≠ CostOut.num 0 := by
  refine ⟨rfl, ?_⟩
  intro h
  exact CostOut.noConfusion h

/-- C1 (amended): for both planners, a completed planning call either
returns the failure triple — empty-list cost marker (not the number `0`),
empty path, empty expanded set — or a numeric cost together with an
expanded set containing the goal position; the two outcomes are therefore
distinguishable. -/
theorem C1_plan_failure_shape :
    (∀ (C : Type) [inst : AddCommMonoid C] (dist hf : Pos → Pos → C)
      (leB : C → C → Bool)
      (pick : SNode C → List (SNode C) → SNode C × List (SNode C))
      (xr yr zr : ℤ) (obstacles inner : List Pos) (s g : Pos) (fuel : ℕ)
      (r : PlanResult C),
      planTheta dist hf leB pick xr yr zr obstacles inner s g fuel = some r →
      r = (CostOut.emptyList, [], []) ∨
        ∃ q, r.1 = CostOut.num q ∧ g ∈ r.2.2.map SNode.current) ∧
    (∀ (C : Type) [inst : AddCommMonoid C] (dist hf : Pos → Pos → C)
      (pick : SNode C → List (SNode C) → SNode C × List (SNode C))
      (obs : List Pos) (jumpFuel : ℕ) (s g : Pos) (fuel : ℕ)
      (r : PlanResult C),
      planJPS dist hf pick obs jumpFuel s g fuel = some r →
      r = (CostOut.emptyList, [], []) ∨
        ∃ q, r.1 = CostOut.num q ∧ g ∈ r.2.2.map SNode.current) :=
  ⟨fun _ _ dist hf leB pick xr yr zr _ inner s g fuel r h =>
    planLoopTheta_outcome dist hf leB pick xr yr zr inner s g fuel _ _ _ r h,
   fun _ _ dist hf pick obs jumpFuel s g fuel r h =>
    planLoopJPS_outcome dist hf pick obs jumpFuel s g fuel _ _ r h⟩

theorem C1_plan_failure_shape_witness :
    (planTheta (fun _ _ => (0 : ℕ)) (fun _ _ => 0) (fun _ _ => false) pickHead
        1 1 1 [] [] (0, 0, 0) (9, 9, 9) 3 = some (CostOut.emptyList, [], []) ∧
      ((CostOut.emptyList, [], []) = ((CostOut.emptyList : CostOut ℕ), ([] : List Pos),
          ([] : List (SNode ℕ))) ∨
        ∃ q, (CostOut.emptyList : CostOut ℕ) = CostOut.num q ∧
          ((9, 9, 9) : Pos) ∈ ([] : List (SNode ℕ)).map SNode.current)) ∧
    (planJPS (fun _ _ => (0 : ℕ)) (fun _ _ => 0) pickHead motions 5
        (0, 0, 0) (9, 9, 9) 3 = some (CostOut.emptyList, [], []) ∧
      ((CostOut.emptyList, [], []) = ((CostOut.emptyList : CostOut ℕ), ([] : List Pos),
          ([] : List (SNode ℕ))) ∨
        ∃ q, (CostOut.emptyList : CostOut ℕ) = CostOut.num q ∧
          ((9, 9, 9) : Pos) ∈ ([] : List (SNode ℕ)).map SNode.current)) :=
  ⟨⟨by decide,
    C1_plan_failure_shape.1 ℕ (fun _ _ => 0) (fun _ _ => 0) (fun _ _ => false) pickHead
      1 1 1 [] [] (0, 0, 0) (9, 9, 9) 3 _ (by decide)⟩,
   ⟨by decide,
    C1_plan_failure_shape.2 ℕ (fun _ _ => 0) (fun _ _ => 0) pickHead motions 5
      (0, 0, 0) (9, 9, 9) 3 _ (by decide)⟩⟩

lemma lookupC_none_iff {C : Type} (closed : List (Pos × SNode C)) (k : Pos) :
    lookupC closed k = none ↔ k ∉ closed.map Prod.fst := by
  induction closed with
  | nil => simp [lookupC]
  | cons pr rest ih =>
    obtain ⟨k0, v0⟩ := pr
    by_cases hk : k0 = k
    · subst hk
      simp [lookupC]
    · rw [lookupC, if_neg hk]
      simp only [List.map_cons, List.mem_cons]
      rw [ih]
      constructor
      · intro h1 h2
        rcases h2 with h2 | h2
        · exact hk h2.symm
        · exact h1 h2
      · intro h1 h2
        exact h1 (Or.inr h2)

lemma valuesC_map_current {C : Type} (closed : List (Pos × SNode C))
    (wf : ∀ pr ∈ closed, (pr.2).current = pr.1) :
    (valuesC closed).map SNode.current = closed.map Prod.fst := by
  induction closed with
  | nil => rfl
  | cons pr rest ih =>
    simp only [valuesC, List.map_cons]
    rw [wf pr (by simp)]
    have := ih (fun q hq => wf q (List.mem_cons_of_mem _ hq))
    simp only [valuesC] at this
    rw [this]

lemma updateVertexS_current {C : Type} [AddCommMonoid C] (dist : Pos → Pos → C)
    (leB : C → C → Bool) (xr yr zr : ℤ) (inner st : List Pos) (np nc : SNode C) :
    (updateVertexS dist leB xr yr zr inner st np nc).1.current = nc.current := by
  unfold updateVertexS
  dsimp only
  split_ifs <;> rfl

lemma processNeighborTheta_current {C : Type} [AddCommMonoid C] (dist hf : Pos → Pos → C)
    (leB : C → C → Bool) (xr yr zr : ℤ) (inner : List Pos) (goalPos : Pos)
    (closed : List (Pos × SNode C)) (node : SNode C) (st : List Pos) (nb : SNode C) :
    (processNeighborTheta dist hf leB xr yr zr inner goalPos closed node st nb).1.current =
      nb.current := by
  unfold processNeighborTheta
  cases lookupC closed node.parent with
  | some np => exact updateVertexS_current dist leB xr yr zr inner st np _
  | none => rfl

/-- Every node pushed by a Theta* expansion has a position that is not in
the closed map at push time. -/
lemma expandGoTheta_not_closed {C : Type} [AddCommMonoid C] (dist hf : Pos → Pos → C)
    (leB : C → C → Bool) (xr yr zr : ℤ) (inner : List Pos) (goalPos : Pos)
    (closed : List (Pos × SNode C)) (node : SNode C) :
    ∀ (nbs : List (SNode C)) (st : List Pos) (nd : SNode C),
      nd ∈ (expandGoTheta dist hf leB xr yr zr inner goalPos closed node nbs st).1 →
      lookupC closed nd.current = none := by
  intro nbs
  induction nbs with
  | nil => intro st nd h; simp [expandGoTheta] at h
  | cons nb rest ih =>
    intro st nd h
    rw [expandGoTheta] at h
    by_cases hcl : (lookupC closed nb.current).isSome
    · rw [if_pos hcl] at h
      exact ih st nd h
    · rw [if_neg hcl] at h
      have hnone : lookupC closed nb.current = none :=
        Option.not_isSome_iff_eq_none.mp hcl
      dsimp only at h
      have hcur := processNeighborTheta_current dist hf leB xr yr zr inner goalPos
        closed node st nb
      by_cases hg : (processNeighborTheta dist hf leB xr yr zr inner goalPos
          closed node st nb).1.current = goalPos
      · rw [if_pos hg, List.mem_singleton] at h
        subst h
        rw [hcur]
        exact hnone
      · rw [if_neg hg, List.mem_cons] at h
        rcases h with h | h
        · subst h
          rw [hcur]
          exact hnone
        · exact ih _ nd h

/-- Every node in the JPS `jp_list` (hence every pushed node) has a
position that is not in the closed map. -/
lemma jpList_not_closed {C : Type} [AddCommMonoid C] (dist hf : Pos → Pos → C)
    (obs : List Pos) (goalPos : Pos) (jumpFuel : ℕ)
    (closed : List (Pos × SNode C)) (node : SNode C) (nd : SNode C)
    (h : nd ∈ jpList dist hf obs goalPos jumpFuel closed node) :
    lookupC closed nd.current = none := by
  rw [jpList, List.mem_filterMap] at h
  obtain ⟨m, _, hm⟩ := h
  cases hj : jump obs goalPos jumpFuel node.current m with
  | none => rw [hj] at hm; simp at hm
  | some jp =>
    rw [hj] at hm
    dsimp only at hm
    by_cases hcl : (lookupC closed jp).isSome
    · rw [if_pos hcl] at hm; simp at hm
    · rw [if_neg hcl] at hm
      have hnd : nd.current = jp := by
        have := Option.some.inj hm
        rw [← this]
      rw [hnd]
      cases hx : lookupC closed jp with
      | none => rfl
      | some v => rw [hx] at hcl; simp at hcl

lemma pushLoopJPS_subset {C : Type} (goalPos : Pos) :
    ∀ (l : List (SNode C)) (nd : SNode C), nd ∈ pushLoopJPS goalPos l → nd ∈ l := by
  intro l
  induction l with
  | nil => intro nd h; simp [pushLoopJPS] at h
  | cons jp rest ih =>
    intro nd h
    rw [pushLoopJPS] at h
    by_cases hg : jp.current = goalPos
    · rw [if_pos hg, List.mem_singleton] at h
      exact h ▸ List.mem_cons_self jp rest
    · rw [if_neg hg, List.mem_cons] at h
      rcases h with h | h
      · exact h ▸ List.mem_cons_self jp rest
      · exact List.mem_cons_of_mem _ (ih nd h)

/-- Positions of the expanded set of a completed Theta* run are pairwise
distinct (each closed-map insertion is guarded by a failed lookup). -/
lemma planLoopTheta_nodup {C : Type} [AddCommMonoid C] (dist hf : Pos → Pos → C)
    (leB : C → C → Bool)
    (pick : SNode C → List (SNode C) → SNode C × List (SNode C))
    (xr yr zr : ℤ) (inner : List Pos) (startPos goalPos : Pos) :
    ∀ (fuel : ℕ) (opn : List (SNode C)) (closed : List (Pos × SNode C))
      (st : List Pos) (r : PlanResult C),
      (closed.map Prod.fst).Nodup →
      (∀ pr ∈ closed, (pr.2).current = pr.1) →
      planLoopTheta dist hf leB pick xr yr zr inner startPos goalPos fuel opn closed st =
        some r →
      (r.2.2.map SNode.current).Nodup := by
  intro fuel
  induction fuel with
  | zero => intro opn closed st r _ _ h; simp [planLoopTheta] at h
  | succ f ih =>
    intro opn closed st r hnd hwf h
    cases opn with
    | nil =>
      rw [planLoopTheta] at h
      rw [← Option.some.inj h]
      simp
    | cons x xs =>
      rw [planLoopTheta] at h
      simp only [] at h
      by_cases hcl : (lookupC closed (pick x xs).1.current).isSome
      · rw [if_pos hcl] at h
        exact ih _ _ _ r hnd hwf h
      · rw [if_neg hcl] at h
        have hnone : lookupC closed (pick x xs).1.current = none := by
          cases hx : lookupC closed (pick x xs).1.current with
          | none => rfl
          | some v => rw [hx] at hcl; simp at hcl
        have hfresh : (pick x xs).1.current ∉ closed.map Prod.fst :=
          (lookupC_none_iff closed _).mp hnone
        have hnd2 : ((closed ++ [((pick x xs).1.current, (pick x xs).1)]).map Prod.fst).Nodup := by
          rw [List.map_append]
          simp only [List.map_cons, List.map_nil]
          rw [List.nodup_append]
          exact ⟨hnd, List.nodup_singleton _, by
            intro a ha hb
            rw [List.mem_singleton] at hb
            subst hb
            exact hfresh ha⟩
        have hwf2 : ∀ pr ∈ closed ++ [((pick x xs).1.current, (pick x xs).1)],
            (pr.2).current = pr.1 := by
          intro pr hpr
          rw [List.mem_append] at hpr
          rcases hpr with hpr | hpr
          · exact hwf pr hpr
          · rw [List.mem_singleton] at hpr
            subst hpr
            rfl
        by_cases hgoal : (pick x xs).1.current = goalPos
        · rw [if_pos hgoal] at h
          cases hext : extractPath dist (closed ++ [((pick x xs).1.current, (pick x xs).1)])
              startPos goalPos ((closed ++ [((pick x xs).1.current, (pick x xs).1)]).length + 1) with
          | none => rw [hext] at h; simp at h
          | some cp =>
            rw [hext] at h
            dsimp only at h
            rw [← Option.some.inj h]
            dsimp only
            rw [valuesC_map_current _ hwf2]
            exact hnd2
        · rw [if_neg hgoal] at h
          exact ih _ _ _ r hnd2 hwf2 h

/-- Positions of the expanded set of a completed JPS run are pairwise
distinct. -/
lemma planLoopJPS_nodup {C : Type} [AddCommMonoid C] (dist hf : Pos → Pos → C)
    (pick : SNode C → List (SNode C) → SNode C × List (SNode C))
    (obs : List Pos) (jumpFuel : ℕ) (startPos goalPos : Pos) :
    ∀ (fuel : ℕ) (opn : List (SNode C)) (closed : List (Pos × SNode C))
      (r : PlanResult C),
      (closed.map Prod.fst).Nodup →
      (∀ pr ∈ closed, (pr.2).current = pr.1) →
      planLoopJPS dist hf pick obs jumpFuel startPos goalPos fuel opn closed = some r →
      (r.2.2.map SNode.current).Nodup := by
  intro fuel
  induction fuel with
  | zero => intro opn closed r _ _ h; simp [planLoopJPS] at h
  | succ f ih =>
    intro opn closed r hnd hwf h
    cases opn with
    | nil =>
      rw [planLoopJPS] at h
      rw [← Option.some.inj h]
      simp
    | cons x xs =>
      rw [planLoopJPS] at h
      simp only [] at h
      by_cases hcl : (lookupC closed (pick x xs).1.current).isSome
      · rw [if_pos hcl] at h
        exact ih _ _ r hnd hwf h
      · rw [if_neg hcl] at h
        have hnone : lookupC closed (pick x xs).1.current = none := by
          cases hx : lookupC closed (pick x xs).1.current with
          | none => rfl
          | some v => rw [hx] at hcl; simp at hcl
        have hfresh : (pick x xs).1.current ∉ closed.map Prod.fst :=
          (lookupC_none_iff closed _).mp hnone
        have hnd2 : ((closed ++ [((pick x xs).1.current, (pick x xs).1)]).map Prod.fst).Nodup := by
          rw [List.map_append]
          simp only [List.map_cons, List.map_nil]
          rw [List.nodup_append]
          exact ⟨hnd, List.nodup_singleton _, by
            intro a ha hb
            rw [List.mem_singleton] at hb
            subst hb
            exact hfresh ha⟩
        have hwf2 : ∀ pr ∈ closed ++ [((pick x xs).1.current, (pick x xs).1)],
            (pr.2).current = pr.1 := by
          intro pr hpr
          rw [List.mem_append] at hpr
          rcases hpr with hpr | hpr
          · exact hwf pr hpr
          · rw [List.mem_singleton] at hpr
            subst hpr
            rfl
        by_cases hgoal : (pick x xs).1.current = goalPos
        · rw [if_pos hgoal] at h
          cases hext : extractPath dist (closed ++ [((pick x xs).1.current, (pick x xs).1)])
              startPos goalPos ((closed ++ [((pick x xs).1.current, (pick x xs).1)]).length + 1) with
          | none => rw [hext] at h; simp at h
          | some cp =>
            rw [hext] at h
            dsimp only at h
            rw [← Option.some.inj h]
            dsimp only
            rw [valuesC_map_current _ hwf2]
            exact hnd2
        · rw [if_neg hgoal] at h
          exact ih _ _ r hnd2 hwf2 h

/-- C8: closed-map discipline of both planners.  (i) A popped node whose
position is already closed is discarded: the loop recurses on the remaining
open list with the closed map unchanged and nothing pushed.  (ii) Every
successor pushed by an expansion has a position that is not closed at push
time.  (iii) In every completed run the expanded set (the closed map's
values) holds pairwise-distinct positions — positions are closed at most
once and never re-expanded.  Stated for Theta* and for JPS. -/
theorem C8_closed_map_discipline :
    (∀ (C : Type) [inst : AddCommMonoid C] (dist hf : Pos → Pos → C)
      (leB : C → C → Bool)
      (pick : SNode C → List (SNode C) → SNode C × List (SNode C))
      (xr yr zr : ℤ) (inner : List Pos) (s g : Pos) (f : ℕ)
      (x : SNode C) (xs : List (SNode C)) (closed : List (Pos × SNode C))
      (st : List Pos),
      (lookupC closed ((pick x xs).1).current).isSome = true →
      planLoopTheta dist hf leB pick xr yr zr inner s g (f + 1) (x :: xs) closed st =
        planLoopTheta dist hf leB pick xr yr zr inner s g f (pick x xs).2 closed st) ∧
    (∀ (C : Type) [inst : AddCommMonoid C] (dist hf : Pos → Pos → C)
      (leB : C → C → Bool) (xr yr zr : ℤ) (inner : List Pos) (goalPos : Pos)
      (closed : List (Pos × SNode C)) (node : SNode C) (nbs : List (SNode C))
      (st : List Pos) (nd : SNode C),
      nd ∈ (expandGoTheta dist hf leB xr yr zr inner goalPos closed node nbs st).1 →
      lookupC closed nd.current = none) ∧
    (∀ (C : Type) [inst : AddCommMonoid C] (dist hf : Pos → Pos → C)
      (leB : C → C → Bool)
      (pick : SNode C → List (SNode C) → SNode C × List (SNode C))
      (xr yr zr : ℤ) (obstacles inner : List Pos) (s g : Pos) (fuel : ℕ)
      (r : PlanResult C),
      planTheta dist hf leB pick xr yr zr obstacles inner s g fuel = some r →
      (r.2.2.map SNode.current).Nodup) ∧
    (∀ (C : Type) [inst : AddCommMonoid C] (dist hf : Pos → Pos → C)
      (pick : SNode C → List (SNode C) → SNode C × List (SNode C))
      (obs : List Pos) (jumpFuel : ℕ) (s g : Pos) (f : ℕ)
      (x : SNode C) (xs : List (SNode C)) (closed : List (Pos × SNode C)),
      (lookupC closed ((pick x xs).1).current).isSome = true →
      planLoopJPS dist hf pick obs jumpFuel s g (f + 1) (x :: xs) closed =
        planLoopJPS dist hf pick obs jumpFuel s g f (pick x xs).2 closed) ∧
    (∀ (C : Type) [inst : AddCommMonoid C] (dist hf : Pos → Pos → C)
      (obs : List Pos) (goalPos : Pos) (jumpFuel : ℕ)
      (closed : List (Pos × SNode C)) (node nd : SNode C),
      nd ∈ pushLoopJPS goalPos (jpList dist hf obs goalPos jumpFuel closed node) →
      lookupC closed nd.current = none) ∧
    (∀ (C : Type) [inst : AddCommMonoid C] (dist hf : Pos → Pos → C)
      (pick : SNode C → List (SNode C) → SNode C × List (SNode C))
      (obs : List Pos) (jumpFuel : ℕ) (s g : Pos) (fuel : ℕ)
      (r : PlanResult C),
      planJPS dist hf pick obs jumpFuel s g fuel = some r →
      (r.2.2.map SNode.current).Nodup) := by
  refine ⟨?_, ?_, ?_, ?_, ?_, ?_⟩
  · intro C inst dist hf leB pick xr yr zr inner s g f x xs closed st h
    rw [planLoopTheta]
    dsimp only
    rw [h]
    simp
  · intro C inst dist hf leB xr yr zr inner goalPos closed node nbs st nd h
    exact expandGoTheta_not_closed dist hf leB xr yr zr inner goalPos closed node nbs st nd h
  · intro C inst dist hf leB pick xr yr zr obstacles inner s g fuel r h
    exact planLoopTheta_nodup dist hf leB pick xr yr zr inner s g fuel _ _ _ r
      (by simp) (by simp) h
  · intro C inst dist hf pick obs jumpFuel s g f x xs closed h
    rw [planLoopJPS]
    dsimp only
    rw [h]
    simp
  · intro C inst dist hf obs goalPos jumpFuel closed node nd h
    exact jpList_not_closed dist hf obs goalPos jumpFuel closed node nd
      (pushLoopJPS_subset goalPos _ nd h)
  · intro C inst dist hf pick obs jumpFuel s g fuel r h
    exact planLoopJPS_nodup dist hf pick obs jumpFuel s g fuel _ _ r
      (by simp) (by simp) h

theorem C8_closed_map_discipline_witness :
    ((lookupC [(((0, 0, 0) : Pos), (⟨(0, 0, 0), (0, 0, 0), 0, 0⟩ : SNode ℕ))]
        ((pickHead (⟨(0, 0, 0), (0, 0, 0), 0, 0⟩ : SNode ℕ) []).1).current).isSome = true ∧
      planLoopTheta (fun _ _ => (0 : ℕ)) (fun _ _ => 0) (fun _ _ => false) pickHead
        1 1 1 [] (0, 0, 0) (9, 9, 9) 3 [⟨(0, 0, 0), (0, 0, 0), 0, 0⟩]
        [((0, 0, 0), ⟨(0, 0, 0), (0, 0, 0), 0, 0⟩)] [] =
      planLoopTheta (fun _ _ => (0 : ℕ)) (fun _ _ => 0) (fun _ _ => false) pickHead
        1 1 1 [] (0, 0, 0) (9, 9, 9) 2
        (pickHead (⟨(0, 0, 0), (0, 0, 0), 0, 0⟩ : SNode ℕ) []).2
        [((0, 0, 0), ⟨(0, 0, 0), (0, 0, 0), 0, 0⟩)] []) ∧
    ((⟨(1, 0, 0), (0, 0, 0), 0 + 0, 0⟩ : SNode ℕ) ∈
        (expandGoTheta (fun _ _ => (0 : ℕ)) (fun _ _ => 0) (fun _ _ => false) 2 1 1 []
          (1, 0, 0) [] ⟨(0, 0, 0), (0, 0, 0), 0, 0⟩ [⟨(1, 0, 0), (0, 0, 0), 0, 0⟩] []).1 ∧
      lookupC ([] : List (Pos × SNode ℕ)) (1, 0, 0) = none) ∧
    (planTheta (fun _ _ => (0 : ℕ)) (fun _ _ => 0) (fun _ _ => false) pickHead 2 1 1 [] []
        (0, 0, 0) (1, 0, 0) 4 =
      some (CostOut.num 0, [(0, 0, 0), (1, 0, 0)],
        [⟨(0, 0, 0), (0, 0, 0), 0, 0⟩, ⟨(1, 0, 0), (0, 0, 0), 0, 0⟩]) ∧
      (([⟨(0, 0, 0), (0, 0, 0), 0, 0⟩, (⟨(1, 0, 0), (0, 0, 0), 0, 0⟩ : SNode ℕ)]).map
        SNode.current).Nodup) ∧
    ((lookupC [(((0, 0, 0) : Pos), (⟨(0, 0, 0), (0, 0, 0), 0, 0⟩ : SNode ℕ))]
        ((pickHead (⟨(0, 0, 0), (0, 0, 0), 0, 0⟩ : SNode ℕ) []).1).current).isSome = true ∧
      planLoopJPS (fun _ _ => (0 : ℕ)) (fun _ _ => 0) pickHead motions 2
        (0, 0, 0) (9, 9, 9) 3 [⟨(0, 0, 0), (0, 0, 0), 0, 0⟩]
        [((0, 0, 0), ⟨(0, 0, 0), (0, 0, 0), 0, 0⟩)] =
      planLoopJPS (fun _ _ => (0 : ℕ)) (fun _ _ => 0) pickHead motions 2
        (0, 0, 0) (9, 9, 9) 2 (pickHead (⟨(0, 0, 0), (0, 0, 0), 0, 0⟩ : SNode ℕ) []).2
        [((0, 0, 0), ⟨(0, 0, 0), (0, 0, 0), 0, 0⟩)]) ∧
    ((⟨(1, 0, 0), (0, 0, 0), 0 + 0, 0⟩ : SNode ℕ) ∈
        pushLoopJPS (1, 0, 0)
          (jpList (fun _ _ => (0 : ℕ)) (fun _ _ => 0)
            (motions.filter (fun m => !(decide (m = ((1, 0, 0) : Pos))))) (1, 0, 0) 2 []
            ⟨(0, 0, 0), (0, 0, 0), 0, 0⟩) ∧
      lookupC ([] : List (Pos × SNode ℕ)) (1, 0, 0) = none) ∧
    (planJPS (fun _ _ => (0 : ℕ)) (fun _ _ => 0) pickHead
        (motions.filter (fun m => !(decide (m = ((1, 0, 0) : Pos))))) 2
        (0, 0, 0) (1, 0, 0) 4 =
      some (CostOut.num 0, [(0, 0, 0), (1, 0, 0)],
        [⟨(0, 0, 0), (0, 0, 0), 0, 0⟩, ⟨(1, 0, 0), (0, 0, 0), 0, 0⟩]) ∧
      (([⟨(0, 0, 0), (0, 0, 0), 0, 0⟩, (⟨(1, 0, 0), (0, 0, 0), 0, 0⟩ : SNode ℕ)]).map
        SNode.current).Nodup) :=
  ⟨⟨by decide,
    C8_closed_map_discipline.1 ℕ (fun _ _ => 0) (fun _ _ => 0) (fun _ _ => false) pickHead
      1 1 1 [] (0, 0, 0) (9, 9, 9) 2 ⟨(0, 0, 0), (0, 0, 0), 0, 0⟩ []
      [((0, 0, 0), ⟨(0, 0, 0), (0, 0, 0), 0, 0⟩)] [] (by decide)⟩,
   ⟨by decide,
    C8_closed_map_discipline.2.1 ℕ (fun _ _ => 0) (fun _ _ => 0) (fun _ _ => false)
      2 1 1 [] (1, 0, 0) [] ⟨(0, 0, 0), (0, 0, 0), 0, 0⟩ [⟨(1, 0, 0), (0, 0, 0), 0, 0⟩] []
      ⟨(1, 0, 0), (0, 0, 0), 0 + 0, 0⟩ (by decide)⟩,
   ⟨by decide,
    C8_closed_map_discipline.2.2.1 ℕ (fun _ _ => 0) (fun _ _ => 0) (fun _ _ => false)
      pickHead 2 1 1 [] [] (0, 0, 0) (1, 0, 0) 4
      (CostOut.num 0, [(0, 0, 0), (1, 0, 0)],
        [⟨(0, 0, 0), (0, 0, 0), 0, 0⟩, ⟨(1, 0, 0), (0, 0, 0), 0, 0⟩]) (by decide)⟩,
   ⟨by decide,
    C8_closed_map_discipline.2.2.2.1 ℕ (fun _ _ => 0) (fun _ _ => 0) pickHead motions 2
      (0, 0, 0) (9, 9, 9) 2 ⟨(0, 0, 0), (0, 0, 0), 0, 0⟩ []
      [((0, 0, 0), ⟨(0, 0, 0), (0, 0, 0), 0, 0⟩)] (by decide)⟩,
   ⟨by decide,
    C8_closed_map_discipline.2.2.2.2.1 ℕ (fun _ _ => 0) (fun _ _ => 0)
      (motions.filter (fun m => !(decide (m = ((1, 0, 0) : Pos))))) (1, 0, 0) 2 []
      ⟨(0, 0, 0), (0, 0, 0), 0, 0⟩ ⟨(1, 0, 0), (0, 0, 0), 0 + 0, 0⟩ (by decide)⟩,
   ⟨by decide,
    C8_closed_map_discipline.2.2.2.2.2 ℕ (fun _ _ => 0) (fun _ _ => 0) pickHead
      (motions.filter (fun m => !(decide (m = ((1, 0, 0) : Pos))))) 2
      (0, 0, 0) (1, 0, 0) 4
      (CostOut.num 0, [(0, 0, 0), (1, 0, 0)],
        [⟨(0, 0, 0), (0, 0, 0), 0, 0⟩, ⟨(1, 0, 0), (0, 0, 0), 0, 0⟩]) (by decide)⟩⟩

lemma expandGoTheta_cons_closed {C : Type} [AddCommMonoid C] (dist hf : Pos → Pos → C)
    (leB : C → C → Bool) (xr yr zr : ℤ) (inner : List Pos) (goalPos : Pos)
    (closed : List (Pos × SNode C)) (node nb : SNode C) (rest : List (SNode C))
    (st : List Pos) (h : (lookupC closed nb.current).isSome = true) :
    expandGoTheta dist hf leB xr yr zr inner goalPos closed node (nb :: rest) st =
      expandGoTheta dist hf leB xr yr zr inner goalPos closed node rest st := by
  rw [expandGoTheta, if_pos h]

lemma expandGoTheta_cons_goal {C : Type} [AddCommMonoid C] (dist hf : Pos → Pos → C)
    (leB : C → C → Bool) (xr yr zr : ℤ) (inner : List Pos) (goalPos : Pos)
    (closed : List (Pos × SNode C)) (node nb : SNode C) (rest : List (SNode C))
    (st : List Pos) (h1 : ¬ (lookupC closed nb.current).isSome = true)
    (h2 : (processNeighborTheta dist hf leB xr yr zr inner goalPos closed node
      st nb).1.current = goalPos) :
    expandGoTheta dist hf leB xr yr zr inner goalPos closed node (nb :: rest) st =
      ([(processNeighborTheta dist hf leB xr yr zr inner goalPos closed node st nb).1],
       (processNeighborTheta dist hf leB xr yr zr inner goalPos closed node st nb).2) := by
  rw [expandGoTheta, if_neg h1]
  dsimp only
  rw [if_pos h2]

lemma expandGoTheta_cons_step {C : Type} [AddCommMonoid C] (dist hf : Pos → Pos → C)
    (leB : C → C → Bool) (xr yr zr : ℤ) (inner : List Pos) (goalPos : Pos)
    (closed : List (Pos × SNode C)) (node nb : SNode C) (rest : List (SNode C))
    (st : List Pos) (h1 : ¬ (lookupC closed nb.current).isSome = true)
    (h2 : ¬ (processNeighborTheta dist hf leB xr yr zr inner goalPos closed node
      st nb).1.current = goalPos) :
    expandGoTheta dist hf leB xr yr zr inner goalPos closed node (nb :: rest) st =
      ((processNeighborTheta dist hf leB xr yr zr inner goalPos closed node st nb).1 ::
        (expandGoTheta dist hf leB xr yr zr inner goalPos closed node rest
          (processNeighborTheta dist hf leB xr yr zr inner goalPos closed node st nb).2).1,
       (expandGoTheta dist hf leB xr yr zr inner goalPos closed node rest
          (processNeighborTheta dist hf leB xr yr zr inner goalPos closed node st nb).2).2) := by
  rw [expandGoTheta, if_neg h1]
  dsimp only
  rw [if_neg h2]

/-- When the Theta* expansion loop meets a non-closed neighbor at the goal
position after a goal-free prefix, it pushes that processed neighbor and
stops: the neighbors after it are never examined. -/
lemma expandGoTheta_goal_break {C : Type} [AddCommMonoid C] (dist hf : Pos → Pos → C)
    (leB : C → C → Bool) (xr yr zr : ℤ) (inner : List Pos) (goalPos : Pos)
    (closed : List (Pos × SNode C)) (node : SNode C) (gN : SNode C)
    (l2 : List (SNode C)) (hgN : gN.current = goalPos)
    (hnc : lookupC closed gN.current = none) :
    ∀ (l1 : List (SNode C)) (st : List Pos), (∀ m ∈ l1, m.current ≠ goalPos) →
      expandGoTheta dist hf leB xr yr zr inner goalPos closed node (l1 ++ gN :: l2) st =
        ((expandGoTheta dist hf leB xr yr zr inner goalPos closed node l1 st).1 ++
          [(processNeighborTheta dist hf leB xr yr zr inner goalPos closed node
            (expandGoTheta dist hf leB xr yr zr inner goalPos closed node l1 st).2 gN).1],
         (processNeighborTheta dist hf leB xr yr zr inner goalPos closed node
            (expandGoTheta dist hf leB xr yr zr inner goalPos closed node l1 st).2 gN).2) := by
  intro l1
  induction l1 with
  | nil =>
    intro st _
    have hskip : ¬ (lookupC closed gN.current).isSome = true := by
      rw [hnc]; simp
    have hcur : (processNeighborTheta dist hf leB xr yr zr inner goalPos closed node
        st gN).1.current = goalPos := by
      rw [processNeighborTheta_current]; exact hgN
    rw [List.nil_append,
      expandGoTheta_cons_goal dist hf leB xr yr zr inner goalPos closed node gN l2 st
        hskip hcur]
    simp [expandGoTheta]
  | cons m l1 ih =>
    intro st hfree
    have hm : m.current ≠ goalPos := hfree m (List.mem_cons_self m l1)
    have hfree2 : ∀ q ∈ l1, q.current ≠ goalPos :=
      fun q hq => hfree q (List.mem_cons_of_mem _ hq)
    by_cases hcl : (lookupC closed m.current).isSome
    · rw [List.cons_append,
        expandGoTheta_cons_closed dist hf leB xr yr zr inner goalPos closed node m _ st hcl,
        expandGoTheta_cons_closed dist hf leB xr yr zr inner goalPos closed node m l1 st hcl,
        ih st hfree2]
    · have hrg : ¬ (processNeighborTheta dist hf leB xr yr zr inner goalPos closed node
          st m).1.current = goalPos := by
        rw [processNeighborTheta_current]; exact hm
      rw [List.cons_append,
        expandGoTheta_cons_step dist hf leB xr yr zr inner goalPos closed node m _ st hcl hrg,
        expandGoTheta_cons_step dist hf leB xr yr zr inner goalPos closed node m l1 st hcl hrg,
        ih _ hfree2]
      simp

/-- The JPS push loop pushes a goal-free prefix and the first goal node,
and drops everything after it. -/
lemma pushLoopJPS_goal_break {C : Type} (goalPos : Pos) (gJ : SNode C)
    (l2 : List (SNode C)) (hgJ : gJ.current = goalPos) :
    ∀ l1 : List (SNode C), (∀ m ∈ l1, m.current ≠ goalPos) →
      pushLoopJPS goalPos (l1 ++ gJ :: l2) = l1 ++ [gJ] := by
  intro l1
  induction l1 with
  | nil =>
    intro _
    rw [List.nil_append, pushLoopJPS, if_pos hgJ]
    rfl
  | cons m l1 ih =>
    intro hfree
    have hm : m.current ≠ goalPos := hfree m (List.mem_cons_self m l1)
    rw [List.cons_append, pushLoopJPS, if_neg hm,
      ih (fun q hq => hfree q (List.mem_cons_of_mem _ hq)), List.cons_append]

/-- C10: in both planners, when a generated successor's position equals the
goal, it is pushed and the remaining successors of the same expansion are
not (the expansion-loop equation drops the suffix after the first goal
successor), and the search still continues: an expansion step never returns
a result — the loop recurses with the pushed successors, and a result is
produced only when a later pop selects the goal. -/
theorem C10_goal_push_breaks_expansion :
    (∀ (C : Type) [inst : AddCommMonoid C] (dist hf : Pos → Pos → C)
      (leB : C → C → Bool) (xr yr zr : ℤ) (inner : List Pos) (goalPos : Pos)
      (closed : List (Pos × SNode C)) (node gN : SNode C)
      (l1 l2 : List (SNode C)) (st : List Pos),
      gN.current = goalPos → lookupC closed gN.current = none →
      (∀ m ∈ l1, m.current ≠ goalPos) →
      expandGoTheta dist hf leB xr yr zr inner goalPos closed node (l1 ++ gN :: l2) st =
        ((expandGoTheta dist hf leB xr yr zr inner goalPos closed node l1 st).1 ++
          [(processNeighborTheta dist hf leB xr yr zr inner goalPos closed node
            (expandGoTheta dist hf leB xr yr zr inner goalPos closed node l1 st).2 gN).1],
         (processNeighborTheta dist hf leB xr yr zr inner goalPos closed node
            (expandGoTheta dist hf leB xr yr zr inner goalPos closed node l1 st).2 gN).2)) ∧
    (∀ (C : Type) [inst : AddCommMonoid C] (dist hf : Pos → Pos → C)
      (leB : C → C → Bool)
      (pick : SNode C → List (SNode C) → SNode C × List (SNode C))
      (xr yr zr : ℤ) (inner : List Pos) (s g : Pos) (f : ℕ)
      (x : SNode C) (xs : List (SNode C)) (closed : List (Pos × SNode C))
      (st : List Pos),
      lookupC closed ((pick x xs).1).current = none →
      ((pick x xs).1).current ≠ g →
      planLoopTheta dist hf leB pick xr yr zr inner s g (f + 1) (x :: xs) closed st =
        planLoopTheta dist hf leB pick xr yr zr inner s g f
          ((pick x xs).2 ++
            (expandGoTheta dist hf leB xr yr zr inner g closed (pick x xs).1
              (getNeighbor dist xr yr zr st (pick x xs).1) st).1)
          (closed ++ [(((pick x xs).1).current, (pick x xs).1)])
          (expandGoTheta dist hf leB xr yr zr inner g closed (pick x xs).1
            (getNeighbor dist xr yr zr st (pick x xs).1) st).2) ∧
    (∀ (C : Type) (goalPos : Pos) (gJ : SNode C) (l1 l2 : List (SNode C)),
      gJ.current = goalPos → (∀ m ∈ l1, m.current ≠ goalPos) →
      pushLoopJPS goalPos (l1 ++ gJ :: l2) = l1 ++ [gJ]) ∧
    (∀ (C : Type) [inst : AddCommMonoid C] (dist hf : Pos → Pos → C)
      (pick : SNode C → List (SNode C) → SNode C × List (SNode C))
      (obs : List Pos) (jumpFuel : ℕ) (s g : Pos) (f : ℕ)
      (x : SNode C) (xs : List (SNode C)) (closed : List (Pos × SNode C)),
      lookupC closed ((pick x xs).1).current = none →
      ((pick x xs).1).current ≠ g →
      planLoopJPS dist hf pick obs jumpFuel s g (f + 1) (x :: xs) closed =
        planLoopJPS dist hf pick obs jumpFuel s g f
          ((pick x xs).2 ++
            pushLoopJPS g (jpList dist hf obs g jumpFuel closed (pick x xs).1))
          (closed ++ [(((pick x xs).1).current, (pick x xs).1)])) := by
  refine ⟨?_, ?_, ?_, ?_⟩
  · intro C inst dist hf leB xr yr zr inner goalPos closed node gN l1 l2 st h1 h2 h3
    exact expandGoTheta_goal_break dist hf leB xr yr zr inner goalPos closed node gN l2
      h1 h2 l1 st h3
  · intro C inst dist hf leB pick xr yr zr inner s g f x xs closed st hnone hne
    rw [planLoopTheta]
    dsimp only
    rw [hnone]
    simp only [Option.isSome_none, Bool.false_eq_true, if_false]
    rw [if_neg hne]
  · intro C goalPos gJ l1 l2 h1 h2
    exact pushLoopJPS_goal_break goalPos gJ l2 h1 l1 h2
  · intro C inst dist hf pick obs jumpFuel s g f x xs closed hnone hne
    rw [planLoopJPS]
    dsimp only
    rw [hnone]
    simp only [Option.isSome_none, Bool.false_eq_true, if_false]
    rw [if_neg hne]

theorem C10_goal_push_breaks_expansion_witness :
    (((⟨(1, 0, 0), (0, 0, 0), 0, 0⟩ : SNode ℕ).current = (1, 0, 0) ∧
      lookupC ([] : List (Pos × SNode ℕ)) (1, 0, 0) = none ∧
      (∀ m ∈ [(⟨(3, 3, 3), (0, 0, 0), 0, 0⟩ : SNode ℕ)], m.current ≠ ((1, 0, 0) : Pos)) ∧
      expandGoTheta (fun _ _ => (0 : ℕ)) (fun _ _ => 0) (fun _ _ => false) 2 1 1 []
        (1, 0, 0) [] ⟨(0, 0, 0), (0, 0, 0), 0, 0⟩
        ([⟨(3, 3, 3), (0, 0, 0), 0, 0⟩] ++ ⟨(1, 0, 0), (0, 0, 0), 0, 0⟩ ::
          [⟨(5, 5, 5), (0, 0, 0), 0, 0⟩]) [] =
        ((expandGoTheta (fun _ _ => (0 : ℕ)) (fun _ _ => 0) (fun _ _ => false) 2 1 1 []
            (1, 0, 0) [] ⟨(0, 0, 0), (0, 0, 0), 0, 0⟩
            [⟨(3, 3, 3), (0, 0, 0), 0, 0⟩] []).1 ++
          [(processNeighborTheta (fun _ _ => (0 : ℕ)) (fun _ _ => 0) (fun _ _ => false)
            2 1 1 [] (1, 0, 0) [] ⟨(0, 0, 0), (0, 0, 0), 0, 0⟩
            (expandGoTheta (fun _ _ => (0 : ℕ)) (fun _ _ => 0) (fun _ _ => false) 2 1 1 []
              (1, 0, 0) [] ⟨(0, 0, 0), (0, 0, 0), 0, 0⟩
              [⟨(3, 3, 3), (0, 0, 0), 0, 0⟩] []).2 ⟨(1, 0, 0), (0, 0, 0), 0, 0⟩).1],
         (processNeighborTheta (fun _ _ => (0 : ℕ)) (fun _ _ => 0) (fun _ _ => false)
            2 1 1 [] (1, 0, 0) [] ⟨(0, 0, 0), (0, 0, 0), 0, 0⟩
            (expandGoTheta (fun _ _ => (0 : ℕ)) (fun _ _ => 0) (fun _ _ => false) 2 1 1 []
              (1, 0, 0) [] ⟨(0, 0, 0), (0, 0, 0), 0, 0⟩
              [⟨(3, 3, 3), (0, 0, 0), 0, 0⟩] []).2 ⟨(1, 0, 0), (0, 0, 0), 0, 0⟩).2)) ∧
     (lookupC ([] : List (Pos × SNode ℕ))
        ((pickHead (⟨(0, 0, 0), (0, 0, 0), 0, 0⟩ : SNode ℕ) []).1).current = none ∧
      ((pickHead (⟨(0, 0, 0), (0, 0, 0), 0, 0⟩ : SNode ℕ) []).1).current ≠ ((9, 9, 9) : Pos) ∧
      planLoopTheta (fun _ _ => (0 : ℕ)) (fun _ _ => 0) (fun _ _ => false) pickHead
        1 1 1 [] (0, 0, 0) (9, 9, 9) 3 [⟨(0, 0, 0), (0, 0, 0), 0, 0⟩] [] [] =
        planLoopTheta (fun _ _ => (0 : ℕ)) (fun _ _ => 0) (fun _ _ => false) pickHead
          1 1 1 [] (0, 0, 0) (9, 9, 9) 2
          ((pickHead (⟨(0, 0, 0), (0, 0, 0), 0, 0⟩ : SNode ℕ) []).2 ++
            (expandGoTheta (fun _ _ => (0 : ℕ)) (fun _ _ => 0) (fun _ _ => false) 1 1 1 []
              (9, 9, 9) [] (pickHead (⟨(0, 0, 0), (0, 0, 0), 0, 0⟩ : SNode ℕ) []).1
              (getNeighbor (fun _ _ => (0 : ℕ)) 1 1 1 []
                (pickHead (⟨(0, 0, 0), (0, 0, 0), 0, 0⟩ : SNode ℕ) []).1) []).1)
          ([] ++ [(((pickHead (⟨(0, 0, 0), (0, 0, 0), 0, 0⟩ : SNode ℕ) []).1).current,
            (pickHead (⟨(0, 0, 0), (0, 0, 0), 0, 0⟩ : SNode ℕ) []).1)])
          (expandGoTheta (fun _ _ => (0 : ℕ)) (fun _ _ => 0) (fun _ _ => false) 1 1 1 []
            (9, 9, 9) [] (pickHead (⟨(0, 0, 0), (0, 0, 0), 0, 0⟩ : SNode ℕ) []).1
            (getNeighbor (fun _ _ => (0 : ℕ)) 1 1 1 []
              (pickHead (⟨(0, 0, 0), (0, 0, 0), 0, 0⟩ : SNode ℕ) []).1) []).2)) ∧
    (((⟨(1, 0, 0), (0, 0, 0), 0, 0⟩ : SNode ℕ).current = (1, 0, 0) ∧
      (∀ m ∈ [(⟨(2, 0, 0), (0, 0, 0), 0, 0⟩ : SNode ℕ)], m.current ≠ ((1, 0, 0) : Pos)) ∧
      pushLoopJPS (1, 0, 0)
        ([(⟨(2, 0, 0), (0, 0, 0), 0, 0⟩ : SNode ℕ)] ++ ⟨(1, 0, 0), (0, 0, 0), 0, 0⟩ ::
          [⟨(5, 5, 5), (0, 0, 0), 0, 0⟩]) =
        [(⟨(2, 0, 0), (0, 0, 0), 0, 0⟩ : SNode ℕ)] ++ [⟨(1, 0, 0), (0, 0, 0), 0, 0⟩]) ∧
     (lookupC ([] : List (Pos × SNode ℕ))
        ((pickHead (⟨(0, 0, 0), (0, 0, 0), 0, 0⟩ : SNode ℕ) []).1).current = none ∧
      ((pickHead (⟨(0, 0, 0), (0, 0, 0), 0, 0⟩ : SNode ℕ) []).1).current ≠ ((9, 9, 9) : Pos) ∧
      planLoopJPS (fun _ _ => (0 : ℕ)) (fun _ _ => 0) pickHead motions 2
        (0, 0, 0) (9, 9, 9) 3 [⟨(0, 0, 0), (0, 0, 0), 0, 0⟩] [] =
        planLoopJPS (fun _ _ => (0 : ℕ)) (fun _ _ => 0) pickHead motions 2
          (0, 0, 0) (9, 9, 9) 2
          ((pickHead (⟨(0, 0, 0), (0, 0, 0), 0, 0⟩ : SNode ℕ) []).2 ++
            pushLoopJPS (9, 9, 9)
              (jpList (fun _ _ => (0 : ℕ)) (fun _ _ => 0) motions (9, 9, 9) 2 []
                (pickHead (⟨(0, 0, 0), (0, 0, 0), 0, 0⟩ : SNode ℕ) []).1))
          ([] ++ [(((pickHead (⟨(0, 0, 0), (0, 0, 0), 0, 0⟩ : SNode ℕ) []).1).current,
            (pickHead (⟨(0, 0, 0), (0, 0, 0), 0, 0⟩ : SNode ℕ) []).1)]))) :=
  ⟨⟨⟨by decide, by decide, by decide,
     C10_goal_push_breaks_expansion.1 ℕ (fun _ _ => 0) (fun _ _ => 0) (fun _ _ => false)
       2 1 1 [] (1, 0, 0) [] ⟨(0, 0, 0), (0, 0, 0), 0, 0⟩ ⟨(1, 0, 0), (0, 0, 0), 0, 0⟩
       [⟨(3, 3, 3), (0, 0, 0), 0, 0⟩] [⟨(5, 5, 5), (0, 0, 0), 0, 0⟩] []
       (by decide) (by decide) (by decide)⟩,
    ⟨by decide, by decide,
     C10_goal_push_breaks_expansion.2.1 ℕ (fun _ _ => 0) (fun _ _ => 0) (fun _ _ => false)
       pickHead 1 1 1 [] (0, 0, 0) (9, 9, 9) 2 ⟨(0, 0, 0), (0, 0, 0), 0, 0⟩ [] [] []
       (by decide) (by decide)⟩⟩,
   ⟨⟨by decide, by decide,
     C10_goal_push_breaks_expansion.2.2.1 ℕ (1, 0, 0) ⟨(1, 0, 0), (0, 0, 0), 0, 0⟩
       [⟨(2, 0, 0), (0, 0, 0), 0, 0⟩] [⟨(5, 5, 5), (0, 0, 0), 0, 0⟩]
       (by decide) (by decide)⟩,
    ⟨by decide, by decide,
     C10_goal_push_breaks_expansion.2.2.2 ℕ (fun _ _ => 0) (fun _ _ => 0) pickHead
       motions 2 (0, 0, 0) (9, 9, 9) 2 ⟨(0, 0, 0), (0, 0, 0), 0, 0⟩ [] []
       (by decide) (by decide)⟩⟩⟩

lemma nAxes_le_three (d : Pos) : nAxes d ≤ 3 := by
  unfold nAxes
  split_ifs <;> omega

lemma nAxes_x (x : ℤ) (hx : x ≠ 0) : nAxes (x, 0, 0) = 1 := by
  unfold nAxes
  rw [if_pos hx]
  norm_num

lemma nAxes_y (y : ℤ) (hy : y ≠ 0) : nAxes (0, y, 0) = 1 := by
  unfold nAxes
  rw [if_pos hy]
  norm_num

lemma nAxes_z (z : ℤ) (hz : z ≠ 0) : nAxes (0, 0, z) = 1 := by
  unfold nAxes
  rw [if_pos hz]
  norm_num

lemma nAxes_xy (x y : ℤ) (hx : x ≠ 0) (hy : y ≠ 0) : nAxes (x, y, 0) = 2 := by
  unfold nAxes
  rw [if_pos hx, if_pos hy]
  norm_num

lemma nAxes_xz (x z : ℤ) (hx : x ≠ 0) (hz : z ≠ 0) : nAxes (x, 0, z) = 2 := by
  unfold nAxes
  rw [if_pos hx, if_pos hz]
  norm_num

lemma nAxes_yz (y z : ℤ) (hy : y ≠ 0) (hz : z ≠ 0) : nAxes (0, y, z) = 2 := by
  unfold nAxes
  rw [if_pos hy, if_pos hz]
  norm_num

lemma axSteps_one (hi n : ℤ) (dflt : ℕ) : axSteps hi n 1 dflt = (hi - n).toNat := by
  unfold axSteps
  norm_num

lemma axSteps_neg (hi n : ℤ) (dflt : ℕ) : axSteps hi n (-1) dflt = n.toNat := by
  unfold axSteps
  norm_num

lemma axSteps_zero (hi n : ℤ) (dflt : ℕ) : axSteps hi n 0 dflt = dflt := by
  unfold axSteps
  norm_num

lemma runSteps_pos (xr yr zr : ℤ) (n d : Pos) (hin : insideBox xr yr zr n)
    (hd : isUnitDir d) : 1 ≤ runSteps xr yr zr n d := by
  obtain ⟨a, b, c⟩ := n
  obtain ⟨u, v, w⟩ := d
  simp only [insideBox] at hin
  obtain ⟨hu, hv, hw2⟩ := hd
  simp only at hu hv hw2
  rcases hu with rfl | rfl | rfl <;> rcases hv with rfl | rfl | rfl <;>
    rcases hw2 with rfl | rfl | rfl <;>
    simp only [runSteps, axSteps_one, axSteps_neg, axSteps_zero, gridD] <;> omega

lemma measure_pos (xr yr zr : ℤ) (n d : Pos) (hin : insideBox xr yr zr n)
    (hd : isUnitDir d) : 1 ≤ jumpMeasure xr yr zr n d := by
  have h := runSteps_pos xr yr zr n d hin hd
  simp only [jumpMeasure]
  omega

lemma runSteps_le_D (xr yr zr : ℤ) (m d : Pos) (hm : insideBox xr yr zr m)
    (hd : isUnitDir d) : runSteps xr yr zr m d ≤ gridD xr yr zr := by
  obtain ⟨a, b, c⟩ := m
  obtain ⟨u, v, w⟩ := d
  simp only [insideBox] at hm
  obtain ⟨hu, hv, hw2⟩ := hd
  simp only at hu hv hw2
  rcases hu with rfl | rfl | rfl <;> rcases hv with rfl | rfl | rfl <;>
    rcases hw2 with rfl | rfl | rfl <;>
    simp only [runSteps, axSteps_one, axSteps_neg, axSteps_zero, gridD] <;> omega

lemma runSteps_step (xr yr zr : ℤ) (n d : Pos) (hin : insideBox xr yr zr n)
    (hd : isUnitDir d) (hd0 : d ≠ (0, 0, 0)) :
    runSteps xr yr zr (padd n d) d + 1 ≤ runSteps xr yr zr n d := by
  obtain ⟨a, b, c⟩ := n
  obtain ⟨u, v, w⟩ := d
  simp only [insideBox] at hin
  obtain ⟨hu, hv, hw2⟩ := hd
  simp only at hu hv hw2
  have hd0' : ¬(u = 0 ∧ v = 0 ∧ w = 0) := by
    intro hz
    exact hd0 (by rw [hz.1, hz.2.1, hz.2.2])
  rcases hu with rfl | rfl | rfl <;> rcases hv with rfl | rfl | rfl <;>
    rcases hw2 with rfl | rfl | rfl <;>
    simp only [runSteps, padd, axSteps_one, axSteps_neg, axSteps_zero, gridD] <;> omega

lemma measure_same_dir (xr yr zr : ℤ) (n d : Pos) (hin : insideBox xr yr zr n)
    (hd : isUnitDir d) (hd0 : d ≠ (0, 0, 0)) :
    jumpMeasure xr yr zr (padd n d) d + 1 ≤ jumpMeasure xr yr zr n d := by
  have h := runSteps_step xr yr zr n d hin hd hd0
  simp only [jumpMeasure]
  omega

lemma measure_sub (xr yr zr : ℤ) (m d d2 : Pos) (hm : insideBox xr yr zr m)
    (hu2 : isUnitDir d2) (hax1 : 1 ≤ nAxes d2) (hax : nAxes d2 + 1 ≤ nAxes d) :
    jumpMeasure xr yr zr m d2 + 1 ≤ (nAxes d - 1) * (gridD xr yr zr + 1) := by
  have hR := runSteps_le_D xr yr zr m d2 hm hu2
  have h3 : nAxes d ≤ 3 := nAxes_le_three d
  have h4 : nAxes d2 ≤ 3 := nAxes_le_three d2
  simp only [jumpMeasure]
  set A2 := nAxes d2 with hA2
  set A := nAxes d with hA
  interval_cases A2 <;> interval_cases A <;> omega

lemma measure_le_run (xr yr zr : ℤ) (n d : Pos) :
    (nAxes d - 1) * (gridD xr yr zr + 1) ≤ jumpMeasure xr yr zr n d := by
  simp only [jumpMeasure]
  omega

lemma measure_bound (xr yr zr : ℤ) (n d : Pos) (hin : insideBox xr yr zr n)
    (hd : isUnitDir d) : jumpMeasure xr yr zr n d ≤ 3 * (gridD xr yr zr + 1) := by
  have hR := runSteps_le_D xr yr zr n d hin hd
  have h3 : nAxes d ≤ 3 := nAxes_le_three d
  simp only [jumpMeasure]
  set A := nAxes d with hA
  interval_cases A <;> omega

/-- Stepping one cell from a strictly interior node along a unit direction,
landing off the obstacle set, stays strictly interior (the wall shell is in
the obstacle set). -/
lemma inside_step (xr yr zr : ℤ) (obs : List Pos)
    (hw : ∀ p : Pos, isWallCell xr yr zr p → p ∈ obs)
    (n d : Pos) (hin : insideBox xr yr zr n) (hd : isUnitDir d)
    (hobs : padd n d ∉ obs) : insideBox xr yr zr (padd n d) := by
  obtain ⟨a, b, c⟩ := n
  obtain ⟨u, v, w⟩ := d
  simp only [insideBox] at hin
  simp only [isUnitDir] at hd
  simp only [padd]
  by_cases hwall : (a + u = 0 ∨ a + u = xr - 1 ∨ b + v = 0 ∨ b + v = yr - 1 ∨
      c + w = 0 ∨ c + w = zr - 1)
  · exfalso
    refine hobs (hw (a + u, b + v, c + w) ⟨?_, ?_⟩)
    · dsimp only
      omega
    · dsimp only
      exact hwall
  · simp only [insideBox]
    omega

/-- Every direction a `jumpBody` unfolding recurses on is a non-zero unit
direction, and the jump measure at the stepped cell along it is strictly
below the measure at the current cell. -/
lemma usedDirs_spec (xr yr zr : ℤ) (n d d2 : Pos) (hd : isUnitDir d)
    (hd0 : d ≠ (0, 0, 0)) (hin : insideBox xr yr zr n)
    (hnewin : insideBox xr yr zr (padd n d)) (hd2 : d2 ∈ usedDirs d) :
    isUnitDir d2 ∧ d2 ≠ (0, 0, 0) ∧
      jumpMeasure xr yr zr (padd n d) d2 + 1 ≤ jumpMeasure xr yr zr n d := by
  have hrun := measure_le_run xr yr zr n d
  by_cases c1 : d.1 ≠ 0 ∧ d.2.1 ≠ 0 ∧ d.2.2 = 0
  · rw [usedDirs, if_pos c1] at hd2
    simp only [List.cons_append, List.nil_append, List.mem_cons,
      List.not_mem_nil, or_false] at hd2
    have hA : nAxes d = 2 := by
      unfold nAxes
      rw [if_pos c1.1, if_pos c1.2.1, if_neg (by rw [c1.2.2]; exact fun h => h rfl)]
    rcases hd2 with rfl | rfl | rfl
    · refine ⟨⟨hd.1, by norm_num, by norm_num⟩, by simp [Prod.ext_iff, c1.1], ?_⟩
      have := measure_sub xr yr zr (padd n d) d (d.1, 0, 0) hnewin
        ⟨hd.1, by norm_num, by norm_num⟩
        (by rw [nAxes_x d.1 c1.1]) (by rw [nAxes_x d.1 c1.1, hA])
      omega
    · refine ⟨⟨by norm_num, hd.2.1, by norm_num⟩, by simp [Prod.ext_iff, c1.2.1], ?_⟩
      have := measure_sub xr yr zr (padd n d) d (0, d.2.1, 0) hnewin
        ⟨by norm_num, hd.2.1, by norm_num⟩
        (by rw [nAxes_y d.2.1 c1.2.1]) (by rw [nAxes_y d.2.1 c1.2.1, hA])
      omega
    · exact ⟨hd, hd0, measure_same_dir xr yr zr n d2 hin hd hd0⟩
  · rw [usedDirs, if_neg c1] at hd2
    by_cases c2 : d.1 ≠ 0 ∧ d.2.1 = 0 ∧ d.2.2 ≠ 0
    · rw [if_pos c2] at hd2
      simp only [List.cons_append, List.nil_append, List.mem_cons,
        List.not_mem_nil, or_false] at hd2
      have hA : nAxes d = 2 := by
        unfold nAxes
        rw [if_pos c2.1, if_neg (by rw [c2.2.1]; exact fun h => h rfl), if_pos c2.2.2]
      rcases hd2 with rfl | rfl | rfl
      · refine ⟨⟨hd.1, by norm_num, by norm_num⟩, by simp [Prod.ext_iff, c2.1], ?_⟩
        have := measure_sub xr yr zr (padd n d) d (d.1, 0, 0) hnewin
          ⟨hd.1, by norm_num, by norm_num⟩
          (by rw [nAxes_x d.1 c2.1]) (by rw [nAxes_x d.1 c2.1, hA])
        omega
      · refine ⟨⟨by norm_num, by norm_num, hd.2.2⟩, by simp [Prod.ext_iff, c2.2.2], ?_⟩
        have := measure_sub xr yr zr (padd n d) d (0, 0, d.2.2) hnewin
          ⟨by norm_num, by norm_num, hd.2.2⟩
          (by rw [nAxes_z d.2.2 c2.2.2]) (by rw [nAxes_z d.2.2 c2.2.2, hA])
        omega
      · exact ⟨hd, hd0, measure_same_dir xr yr zr n d2 hin hd hd0⟩
    · rw [if_neg c2] at hd2
      by_cases c3 : d.1 = 0 ∧ d.2.1 ≠ 0 ∧ d.2.2 ≠ 0
      · rw [if_pos c3] at hd2
        simp only [List.cons_append, List.nil_append, List.mem_cons,
          List.not_mem_nil, or_false] at hd2
        have hA : nAxes d = 2 := by
          unfold nAxes
          rw [if_neg (by rw [c3.1]; exact fun h => h rfl), if_pos c3.2.1, if_pos c3.2.2]
        rcases hd2 with rfl | rfl | rfl
        · refine ⟨⟨by norm_num, hd.2.1, by norm_num⟩, by simp [Prod.ext_iff, c3.2.1], ?_⟩
          have := measure_sub xr yr zr (padd n d) d (0, d.2.1, 0) hnewin
            ⟨by norm_num, hd.2.1, by norm_num⟩
            (by rw [nAxes_y d.2.1 c3.2.1]) (by rw [nAxes_y d.2.1 c3.2.1, hA])
          omega
        · refine ⟨⟨by norm_num, by norm_num, hd.2.2⟩, by simp [Prod.ext_iff, c3.2.2], ?_⟩
          have := measure_sub xr yr zr (padd n d) d (0, 0, d.2.2) hnewin
            ⟨by norm_num, by norm_num, hd.2.2⟩
            (by rw [nAxes_z d.2.2 c3.2.2]) (by rw [nAxes_z d.2.2 c3.2.2, hA])
          omega
        · exact ⟨hd, hd0, measure_same_dir xr yr zr n d2 hin hd hd0⟩
      · rw [if_neg c3] at hd2
        by_cases c4 : d.1 ≠ 0 ∧ d.2.1 ≠ 0 ∧ d.2.2 ≠ 0
        · rw [if_pos c4] at hd2
          simp only [List.cons_append, List.nil_append, List.mem_cons,
            List.not_mem_nil, or_false] at hd2
          have hA : nAxes d = 3 := by
            unfold nAxes
            rw [if_pos c4.1, if_pos c4.2.1, if_pos c4.2.2]
          rcases hd2 with rfl | rfl | rfl | rfl
          · refine ⟨⟨hd.1, hd.2.1, by norm_num⟩, by simp [Prod.ext_iff, c4.1], ?_⟩
            have := measure_sub xr yr zr (padd n d) d (d.1, d.2.1, 0) hnewin
              ⟨hd.1, hd.2.1, by norm_num⟩
              (by rw [nAxes_xy d.1 d.2.1 c4.1 c4.2.1]; omega)
              (by rw [nAxes_xy d.1 d.2.1 c4.1 c4.2.1, hA])
            omega
          · refine ⟨⟨hd.1, by norm_num, hd.2.2⟩, by simp [Prod.ext_iff, c4.1], ?_⟩
            have := measure_sub xr yr zr (padd n d) d (d.1, 0, d.2.2) hnewin
              ⟨hd.1, by norm_num, hd.2.2⟩
              (by rw [nAxes_xz d.1 d.2.2 c4.1 c4.2.2]; omega)
              (by rw [nAxes_xz d.1 d.2.2 c4.1 c4.2.2, hA])
            omega
          · refine ⟨⟨by norm_num, hd.2.1, hd.2.2⟩, by simp [Prod.ext_iff, c4.2.1], ?_⟩
            have := measure_sub xr yr zr (padd n d) d (0, d.2.1, d.2.2) hnewin
              ⟨by norm_num, hd.2.1, hd.2.2⟩
              (by rw [nAxes_yz d.2.1 d.2.2 c4.2.1 c4.2.2]; omega)
              (by rw [nAxes_yz d.2.1 d.2.2 c4.2.1 c4.2.2, hA])
            omega
          · exact ⟨hd, hd0, measure_same_dir xr yr zr n d2 hin hd hd0⟩
        · rw [if_neg c4] at hd2
          simp only [List.nil_append, List.mem_cons, List.not_mem_nil, or_false] at hd2
          subst hd2
          exact ⟨hd, hd0, measure_same_dir xr yr zr n d2 hin hd hd0⟩

/-- `jumpBody` only evaluates its recursion argument at the stepped cell
and at the directions in `usedDirs`, and only when the stepped cell is
neither an obstacle nor the goal. -/
lemma jumpBody_congr (obs : List Pos) (goal : Pos) (r1 r2 : Pos → Pos → Option Pos)
    (n d : Pos)
    (h : padd n d ∉ obs → padd n d ≠ goal →
      ∀ d2 ∈ usedDirs d, r1 (padd n d) d2 = r2 (padd n d) d2) :
    jumpBody obs goal r1 n d = jumpBody obs goal r2 n d := by
  unfold jumpBody
  dsimp only
  by_cases h1 : padd n d ∈ obs
  · rw [if_pos h1, if_pos h1]
  · rw [if_neg h1, if_neg h1]
    by_cases h2 : padd n d = goal
    · rw [if_pos h2, if_pos h2]
    · rw [if_neg h2, if_neg h2]
      have h3 := h h1 h2
      have hsame : r1 (padd n d) d = r2 (padd n d) d := h3 d (by
        rw [usedDirs]
        simp)
      by_cases c1 : d.1 ≠ 0 ∧ d.2.1 ≠ 0 ∧ d.2.2 = 0
      · rw [if_pos c1, if_pos c1,
          h3 (d.1, 0, 0) (by rw [usedDirs, if_pos c1]; simp),
          h3 (0, d.2.1, 0) (by rw [usedDirs, if_pos c1]; simp), hsame]
      · rw [if_neg c1, if_neg c1]
        by_cases c2 : d.1 ≠ 0 ∧ d.2.1 = 0 ∧ d.2.2 ≠ 0
        · rw [if_pos c2, if_pos c2,
            h3 (d.1, 0, 0) (by rw [usedDirs, if_neg c1, if_pos c2]; simp),
            h3 (0, 0, d.2.2) (by rw [usedDirs, if_neg c1, if_pos c2]; simp), hsame]
        · rw [if_neg c2, if_neg c2]
          by_cases c3 : d.1 = 0 ∧ d.2.1 ≠ 0 ∧ d.2.2 ≠ 0
          · rw [if_pos c3, if_pos c3,
              h3 (0, d.2.1, 0) (by rw [usedDirs, if_neg c1, if_neg c2, if_pos c3]; simp),
              h3 (0, 0, d.2.2) (by rw [usedDirs, if_neg c1, if_neg c2, if_pos c3]; simp),
              hsame]
          · rw [if_neg c3, if_neg c3]
            by_cases c4 : d.1 ≠ 0 ∧ d.2.1 ≠ 0 ∧ d.2.2 ≠ 0
            · rw [if_pos c4, if_pos c4,
                h3 (d.1, d.2.1, 0)
                  (by rw [usedDirs, if_neg c1, if_neg c2, if_neg c3, if_pos c4]; simp),
                h3 (d.1, 0, d.2.2)
                  (by rw [usedDirs, if_neg c1, if_neg c2, if_neg c3, if_pos c4]; simp),
                h3 (0, d.2.1, d.2.2)
                  (by rw [usedDirs, if_neg c1, if_neg c2, if_neg c3, if_pos c4]; simp),
                hsame]
            · rw [if_neg c4, if_neg c4, hsame]

/-- Fuel stabilization of `jump` on grids whose wall shell is in the
obstacle set: any two fuels at least the jump measure give the same
result — the unbounded source recursion terminates. -/
lemma jump_stable (xr yr zr : ℤ) (obs : List Pos) (goal : Pos)
    (hw : ∀ p : Pos, isWallCell xr yr zr p → p ∈ obs) :
    ∀ (f : ℕ) (n d : Pos) (g : ℕ),
      insideBox xr yr zr n → isUnitDir d → d ≠ (0, 0, 0) →
      jumpMeasure xr yr zr n d ≤ f → jumpMeasure xr yr zr n d ≤ g →
      jump obs goal f n d = jump obs goal g n d := by
  intro f
  induction f with
  | zero =>
    intro n d g hin hd hd0 hf hg
    have := measure_pos xr yr zr n d hin hd
    omega
  | succ f ih =>
    intro n d g hin hd hd0 hf hg
    have hpos := measure_pos xr yr zr n d hin hd
    cases g with
    | zero => omega
    | succ g2 =>
      show jumpBody obs goal (jump obs goal f) n d =
        jumpBody obs goal (jump obs goal g2) n d
      apply jumpBody_congr
      intro hobs hgoal d2 hd2
      have hnew : insideBox xr yr zr (padd n d) :=
        inside_step xr yr zr obs hw n d hin hd hobs
      obtain ⟨hu2, hz2, hm2⟩ := usedDirs_spec xr yr zr n d d2 hd hd0 hin hnew hd2
      exact ih (padd n d) d2 g2 hnew hu2 hz2 (by omega) (by omega)

/-- C4: on a grid whose boundary cells are obstacles, the `jump` recursion
terminates for every strictly interior node and every non-zero unit
direction: its fuel embedding is stable at every fuel of at least
`3 * (gridD + 1)`, a bound linear in the grid extent. -/
theorem C4_jump_recursion_terminates (xr yr zr : ℤ) (obs : List Pos) (goal n d : Pos)
    (hw : ∀ p : Pos, isWallCell xr yr zr p → p ∈ obs)
    (hin : insideBox xr yr zr n) (hd : isUnitDir d) (hd0 : d ≠ (0, 0, 0))
    (f1 f2 : ℕ) (h1 : 3 * (gridD xr yr zr + 1) ≤ f1)
    (h2 : 3 * (gridD xr yr zr + 1) ≤ f2) :
    jump obs goal f1 n d = jump obs goal f2 n d := by
  have hb := measure_bound xr yr zr n d hin hd
  exact jump_stable xr yr zr obs goal hw f1 n d f2 hin hd hd0 (by omega) (by omega)

theorem C4_jump_recursion_terminates_witness :
    (∀ p : Pos, isWallCell 3 3 3 p → p ∈ wallCells3) ∧
    insideBox 3 3 3 (1, 1, 1) ∧ isUnitDir (1, 0, 0) ∧ ((1, 0, 0) : Pos) ≠ (0, 0, 0) ∧
    3 * (gridD 3 3 3 + 1) ≤ 30 ∧ 3 * (gridD 3 3 3 + 1) ≤ 37 ∧
    jump wallCells3 (9, 9, 9) 30 (1, 1, 1) (1, 0, 0) =
      jump wallCells3 (9, 9, 9) 37 (1, 1, 1) (1, 0, 0) :=
  have hw : ∀ p : Pos, isWallCell 3 3 3 p → p ∈ wallCells3 := by
    intro p hp
    obtain ⟨a, b, c⟩ := p
    unfold isWallCell at hp
    obtain ⟨hbox, hwall⟩ := hp
    simp only at hbox hwall
    obtain ⟨h1, h2, h3, h4, h5, h6⟩ := hbox
    have h2a : a ≤ 2 := by omega
    have h4a : b ≤ 2 := by omega
    have h6a : c ≤ 2 := by omega
    interval_cases a <;> interval_cases b <;> interval_cases c <;>
      revert hwall <;> decide
  ⟨hw, by decide, by decide, by decide, by decide, by decide,
   C4_jump_recursion_terminates 3 3 3 wallCells3 (9, 9, 9) (1, 1, 1) (1, 0, 0) hw
     (by decide) (by decide) (by decide) 30 37 (by decide) (by decide)⟩

/-- C7 counterexample input: the stepped cell `(5,0,0)` is outside a
`3 × 3 × 3` grid, yet `jump` returns it as a jump point (it equals the goal);
the source performs no bounds test at all — only the obstacle test. -/
theorem C7_jump_no_bounds_check :
    jump [] (5, 0, 0) 5 (4, 0, 0) (1, 0, 0) = some (5, 0, 0) ∧
    ¬ inBoundsP 3 3 3 (5, 0, 0) := by
  constructor <;> decide

/-- C7 (amended): at any non-zero fuel, `jump` steps one cell in the motion
direction, returns no jump point when the stepped cell is an obstacle, and
returns the stepped cell itself when it equals the goal; the stepped cell
being out of bounds does not by itself end the search (bounds are enforced
only through boundary obstacle cells). -/
theorem C7_jump_first_checks (f : ℕ) (obs : List Pos) (goal node motion : Pos) :
    (padd node motion ∈ obs → jump obs goal (f + 1) node motion = none) ∧
    (padd node motion ∉ obs → padd node motion = goal →
      jump obs goal (f + 1) node motion = some (padd node motion)) := by
  constructor
  · intro h; simp [jump, jumpBody, h]
  · intro h1 h2
    have h1g : goal ∉ obs := h2 ▸ h1
    simp [jump, jumpBody, h1g, h2]

theorem C7_jump_first_checks_witness :
    (padd (0, 0, 1) (1, 0, 0) ∈ [((1, 0, 1) : Pos)] ∧
      jump [(1, 0, 1)] (9, 9, 9) 4 (0, 0, 1) (1, 0, 0) = none) ∧
    (padd (0, 0, 0) (1, 1, 0) ∉ ([] : List Pos) ∧ padd (0, 0, 0) (1, 1, 0) = (1, 1, 0) ∧
      jump [] (1, 1, 0) 4 (0, 0, 0) (1, 1, 0) = some (padd (0, 0, 0) (1, 1, 0))) :=
  ⟨⟨by decide, (C7_jump_first_checks 3 [(1, 0, 1)] (9, 9, 9) (0, 0, 1) (1, 0, 0)).1 (by decide)⟩,
   ⟨by decide, by decide,
    (C7_jump_first_checks 3 [] (1, 1, 0) (0, 0, 0) (1, 1, 0)).2 (by decide) (by decide)⟩⟩
